import Mathlib

/-!
# Verification of the reddit-helperbot retrieval / agent-loop core

A shallow embedding of the Python sources (`config.py`, `tools.py`,
`llm.py`, `reddit_listener.py`) of the helperbot repository, together with
theorems settling the behavioural claims about trigger matching, the web
tools (search, fetch, render), the retrieval cache, the HTML text
extraction fallback, the tool dispatcher and the agent loop.

Conventions:
* Python strings that flow through the text pipeline are modelled as
  `List Char`; argument- and key-level strings stay `String`.
* Network, browser and external-library calls (`requests`, `playwright`,
  `trafilatura`, `json`) are oracle parameters of the embedded functions;
  a Python exception raised by such a call is an `Except.error`.
* Python `dict` results are modelled as structures whose optional keys are
  `Option` fields (`none` = key absent).
-/

set_option autoImplicit false

namespace HelperBot

/-! ## Generic character/string helpers

`pyIsSpace` models the ASCII part of Python's `\s` / `str.strip()`
whitespace class; all inputs appearing in the claims are ASCII. -/

def pyIsSpace (c : Char) : Bool :=
  c = ' ' || c = '\t' || c = '\n' || c = '\r' || c = '\x0b' || c = '\x0c'

/-- Python `str.strip()` on a character list. -/
def pyStrip (cs : List Char) : List Char :=
  ((cs.dropWhile pyIsSpace).reverse.dropWhile pyIsSpace).reverse

/-- Python `str.strip()` on a `String`. -/
def pyStrTrim (s : String) : String :=
  ⟨pyStrip s.data⟩

/-- `startsCi pat cs` : the lowercase pattern `pat` is a case-insensitive
prefix of `cs` (Python regex matching under `re.I`). -/
def startsCi : List Char → List Char → Bool
  | [], _ => true
  | _ :: _, [] => false
  | p :: ps, c :: cs => (c.toLower = p) && startsCi ps cs

/-- `containsCi pat cs` : some suffix of `cs` starts (case-insensitively)
with `pat`; i.e. `pat` occurs in `cs` under `re.I`. -/
def containsCi (pat : List Char) : List Char → Bool
  | [] => startsCi pat []
  | c :: cs => startsCi pat (c :: cs) || containsCi pat cs

/-- `stripCi pat cs` : drop a case-insensitive occurrence of `pat` from the
front of `cs`, if present. -/
def stripCi (pat : List Char) (cs : List Char) : Option (List Char) :=
  if startsCi pat cs then some (cs.drop pat.length) else none

/-- ASCII approximation of the regex word class `\w` (Python default
`\w` also covers non-ASCII letters; the claims only use ASCII). -/
def isWordChar (c : Char) : Bool :=
  c.isAlpha || c.isDigit || c = '_'

/-! ## `config.py` : the trigger pattern

Embeds `TRIGGER = re.compile(r"^\s*(?:\[?u/|@)(?:grok|ai|gpt|gemini|chatgpt)\b", re.I)`
(src/config.py lines 89-91), applied by the listener via `trigger.match`
(src/reddit_listener.py line 115), hence anchored at the string start. -/

def TRIGGER_NAMES : List (List Char) :=
  ["grok".data, "ai".data, "gpt".data, "gemini".data, "chatgpt".data]

/-- Word boundary `\b` directly after a word character: holds when the
rest of the input is empty or starts with a non-word character. -/
def boundaryOk : List Char → Bool
  | [] => true
  | c :: _ => !isWordChar c

/-- One name alternative followed by `\b`. -/
def nameMatch (rest : List Char) : Bool :=
  TRIGGER_NAMES.any fun n => startsCi n rest && boundaryOk (rest.drop n.length)

/-- `trigger_match s` : does `TRIGGER.match(s)` succeed?  After skipping
leading whitespace, the intro is `[u/`, `u/` or `@` (the regex alternation
`\[?u/|@`), then one of the names with a trailing word boundary. -/
def trigger_match (s : String) : Bool :=
  let cs := s.data.dropWhile pyIsSpace
  let intro : Option (List Char) :=
    match cs with
    | '[' :: rest => stripCi "u/".data rest
    | _ =>
      match stripCi "u/".data cs with
      | some r => some r
      | none => stripCi "@".data cs
  match intro with
  | some rest => nameMatch rest
  | none => false

/-! ## `tools.py` : shared helpers -/

/-- `truncate_text` (src/tools.py lines 68-72): truncate text to
`max_chars`, returning `(text, was_truncated)`. -/
def truncate_text (text : List Char) (maxChars : Int) : List Char × Bool :=
  if (text.length : Int) ≤ maxChars then (text, false)
  else (text.take maxChars.toNat, true)

/-- Scheme extraction of `urllib.parse.urlparse`: the (lowercased) part
before the first `:` when it is a well-formed scheme (letter first, then
letters/digits/`+`/`-`/`.`), else `""`.  Modelled from the stdlib since
`_validate_url` only inspects the scheme. -/
def schemeChar (c : Char) : Bool :=
  c.isAlpha || c.isDigit || c = '+' || c = '-' || c = '.'

def url_scheme_go (acc : List Char) : List Char → Option (List Char)
  | [] => none
  | ':' :: _ => some acc.reverse
  | c :: cs => url_scheme_go (c :: acc) cs

def url_scheme (url : String) : String :=
  match url_scheme_go [] url.data with
  | none => ""
  | some before =>
    match before with
    | [] => ""
    | c :: cs =>
      if c.isAlpha && cs.all schemeChar then ⟨(c :: cs).map Char.toLower⟩
      else ""

/-- `_validate_url` (src/tools.py lines 58-65): error string for an empty
URL or a non-http(s) scheme, `none` when the URL is acceptable. -/
def _validate_url (url : String) : Option String :=
  if url = "" then some "url is required"
  else if url_scheme url = "http" ∨ url_scheme url = "https" then none
  else some "url must start with http:// or https://"

/-! ## `tools.py` : HTML parsing

`simple_html_to_text` (src/tools.py lines 89-103) is a pipeline of
`re.sub` passes; each pass is embedded as a scanner implementing that
pattern's leftmost non-overlapping matching (alternations tried in
order, lazy `.*?` = shortest continuation, greedy classes = maximal
run), with `re.I` as `Char.toLower` comparison. -/

/-- Split at the first case-insensitive occurrence of `pat`:
`(text before, text after the occurrence)`. -/
def splitCi (pat : List Char) : List Char → Option (List Char × List Char)
  | [] => if startsCi pat [] then some ([], []) else none
  | c :: cs =>
    if startsCi pat (c :: cs) then some ([], (c :: cs).drop pat.length)
    else
      match splitCi pat cs with
      | some p => some (c :: p.1, p.2)
      | none => none

/-- The remainder after the first case-insensitive occurrence of `pat`. -/
def findCi (pat cs : List Char) : Option (List Char) :=
  (splitCi pat cs).map (·.2)

/-- The opening of the pattern `(?is)<(script|style|noscript)` at the
head of the input: the (lowercased) tag matched and the rest after it.
The three alternatives are mutually exclusive as prefixes, so trying
them in order is the regex's alternation. -/
def tryOpen (cs : List Char) : Option (List Char × List Char) :=
  match cs with
  | c :: rest =>
    if c = '<' then
      if startsCi "script".data rest then some ("script".data, rest.drop 6)
      else if startsCi "style".data rest then some ("style".data, rest.drop 5)
      else if startsCi "noscript".data rest then some ("noscript".data, rest.drop 8)
      else none
    else none
  | [] => none

/-- Does `(?is)<(script|style|noscript)` match at the head? -/
def isOpenerAt (cs : List Char) : Bool :=
  match cs with
  | c :: rest =>
    c = '<' && (startsCi "script".data rest || startsCi "style".data rest ||
      startsCi "noscript".data rest)
  | [] => false

/-- Does an opener occur anywhere in the input? -/
def hasOpener : List Char → Bool
  | [] => false
  | c :: cs => isOpenerAt (c :: cs) || hasOpener cs

/-- A match of `(?is)<(script|style|noscript).*?>.*?</\1>` starting at
the head of the input: open tag, lazily the first `>`, then lazily the
first (case-insensitive) `</tag>`; returns the rest after the match.
(The lazy `.*?>.*?</\1>` is equivalent to first-`>` then first close
after it: closes after a later `>` are a subset of those after the
first.) -/
def matchBlock (cs : List Char) : Option (List Char) :=
  match tryOpen cs with
  | none => none
  | some p =>
    match findCi ['>'] p.2 with
    | none => none
    | some r2 => findCi ('<' :: '/' :: (p.1 ++ ['>'])) r2

theorem splitCi_length_le (pat : List Char) :
    ∀ cs p, splitCi pat cs = some p → p.2.length ≤ cs.length := by
  intro cs
  induction cs with
  | nil =>
    intro p h
    rw [splitCi] at h
    by_cases h0 : startsCi pat [] = true
    · rw [if_pos h0] at h
      obtain rfl : ([], []) = p := by simpa using h
      simp
    · rw [if_neg h0] at h
      cases h
  | cons c cs ih =>
    intro p h
    rw [splitCi] at h
    by_cases h0 : startsCi pat (c :: cs) = true
    · rw [if_pos h0] at h
      obtain rfl : (([] : List Char), (c :: cs).drop pat.length) = p := by
        simpa using h
      simp only [List.length_drop]
      omega
    · rw [if_neg h0] at h
      cases hres : splitCi pat cs with
      | none => rw [hres] at h; cases h
      | some q =>
        rw [hres] at h
        obtain rfl : (c :: q.1, q.2) = p := by simpa using h
        have := ih q hres
        simp only [List.length_cons]
        omega

theorem findCi_length_le (pat cs r : List Char) (h : findCi pat cs = some r) :
    r.length ≤ cs.length := by
  rw [findCi] at h
  cases hs : splitCi pat cs with
  | none => rw [hs] at h; cases h
  | some p =>
    rw [hs] at h
    obtain rfl : p.2 = r := by simpa using h
    exact splitCi_length_le pat cs p hs

theorem tryOpen_length_lt (cs : List Char) (p : List Char × List Char)
    (h : tryOpen cs = some p) : p.2.length < cs.length := by
  match cs with
  | [] => cases h
  | c :: rest =>
    rw [tryOpen] at h
    by_cases hc : c = '<'
    · rw [if_pos hc] at h
      split_ifs at h <;>
      · obtain rfl := Option.some.inj h
        simp only [List.length_drop, List.length_cons]
        omega
    · rw [if_neg hc] at h
      cases h

theorem matchBlock_length_lt (cs rest : List Char)
    (h : matchBlock cs = some rest) : rest.length < cs.length := by
  rw [matchBlock] at h
  cases hop : tryOpen cs with
  | none => rw [hop] at h; cases h
  | some p =>
    rw [hop] at h
    have h4 : (match findCi ['>'] p.2 with
        | none => none
        | some r2 => findCi ('<' :: '/' :: (p.1 ++ ['>'])) r2) = some rest := h
    cases hgt : findCi ['>'] p.2 with
    | none => rw [hgt] at h4; cases h4
    | some r2 =>
      rw [hgt] at h4
      have h1 := tryOpen_length_lt cs p hop
      have h2 := findCi_length_le _ _ _ hgt
      have h3 := findCi_length_le _ _ _ h4
      omega

/-- One `re.sub` pass, fuel-guided (fuel = an upper bound on the input
length, so the `0` arm is unreachable): at each position, `step`
either yields `(replacement, rest after the match)` for a leftmost match
starting here — scanning resumes after the match — or the character is
kept and scanning advances by one. -/
def subF (step : List Char → Option (List Char × List Char)) :
    Nat → List Char → List Char
  | 0, _ => []
  | _ + 1, [] => []
  | fuel + 1, c :: cs =>
    match step (c :: cs) with
    | some p => p.1 ++ subF step fuel p.2
    | none => c :: subF step fuel cs

/-- A step function always resumes strictly later in the input. -/
def StepShrinks (step : List Char → Option (List Char × List Char)) : Prop :=
  ∀ cs p, step cs = some p → p.2.length < cs.length

theorem subF_nil (step : List Char → Option (List Char × List Char)) (f : Nat) :
    subF step f [] = [] := by
  cases f <;> rfl

theorem subF_congr (step : List Char → Option (List Char × List Char))
    (hs : StepShrinks step) :
    ∀ f1 f2 cs, cs.length ≤ f1 → cs.length ≤ f2 →
      subF step f1 cs = subF step f2 cs := by
  intro f1
  induction f1 with
  | zero =>
    intro f2 cs h1 h2
    obtain rfl : cs = [] := List.eq_nil_of_length_eq_zero (by omega)
    rw [subF_nil, subF_nil]
  | succ f ih =>
    intro f2 cs h1 h2
    cases cs with
    | nil => rw [subF_nil, subF_nil]
    | cons c cs =>
      cases f2 with
      | zero => simp at h2
      | succ k =>
        rw [subF, subF]
        cases hstep : step (c :: cs) with
        | none =>
          simp only [List.length_cons] at h1 h2
          rw [ih k cs (by omega) (by omega)]
        | some p =>
          have := hs _ _ hstep
          simp only [List.length_cons] at h1 h2 this
          show p.1 ++ subF step f p.2 = p.1 ++ subF step k p.2
          rw [ih k p.2 (by omega) (by omega)]

/-- One `re.sub` pass over the whole input. -/
def reSub (step : List Char → Option (List Char × List Char))
    (cs : List Char) : List Char :=
  subF step cs.length cs

theorem reSub_cons_match (step : List Char → Option (List Char × List Char))
    (hs : StepShrinks step) (c : Char) (cs : List Char)
    (p : List Char × List Char) (h : step (c :: cs) = some p) :
    reSub step (c :: cs) = p.1 ++ reSub step p.2 := by
  have hlen := hs _ _ h
  simp only [List.length_cons] at hlen
  rw [reSub, reSub, List.length_cons, subF, h]
  show p.1 ++ subF step cs.length p.2 = p.1 ++ subF step p.2.length p.2
  rw [subF_congr step hs cs.length p.2.length p.2 (by omega) (le_refl _)]

theorem reSub_cons_nomatch (step : List Char → Option (List Char × List Char))
    (c : Char) (cs : List Char) (h : step (c :: cs) = none) :
    reSub step (c :: cs) = c :: reSub step cs := by
  rw [reSub, reSub, List.length_cons, subF, h]

/-- The step of the first pass:
`re.sub(r"(?is)<(script|style|noscript).*?>.*?</\1>", " ", html)`
(src/tools.py line 91) — a matched block is replaced by one space. -/
def stepBlock (cs : List Char) : Option (List Char × List Char) :=
  (matchBlock cs).map fun rest => ([' '], rest)

theorem stepBlock_shrinks : StepShrinks stepBlock := by
  intro cs p h
  rw [stepBlock] at h
  cases hm : matchBlock cs with
  | none => rw [hm] at h; cases h
  | some rest =>
    rw [hm] at h
    obtain rfl : ([' '], rest) = p := by simpa using h
    exact matchBlock_length_lt _ _ hm

/-- First pass of `simple_html_to_text`. -/
def removeBlocks (cs : List Char) : List Char :=
  reSub stepBlock cs

theorem dropWhile_length_le {α : Type} (p : α → Bool) (l : List α) :
    (l.dropWhile p).length ≤ l.length := by
  induction l with
  | nil => simp
  | cons a l ih =>
    rw [List.dropWhile_cons]
    split_ifs
    · exact ih.trans (by simp)
    · simp

/-- The continuation `\s*/?>` of the `<br` pattern, applied after the
maximal whitespace run is consumed: an optional `/` then `>`. -/
def brTail (t : List Char) : Option (List Char) :=
  if t.head? = some '/' then
    if t.tail.head? = some '>' then some (t.drop 2) else none
  else if t.head? = some '>' then some (t.drop 1)
  else none

theorem brTail_length_lt (t r : List Char) (h : brTail t = some r) :
    r.length < t.length := by
  have hne : ∀ (c : Char), t.head? = some c → t.length ≠ 0 := by
    intro c hc hz
    rw [List.length_eq_zero] at hz
    rw [hz] at hc
    cases hc
  unfold brTail at h
  by_cases h1 : t.head? = some '/'
  · rw [if_pos h1] at h
    by_cases h2 : t.tail.head? = some '>'
    · rw [if_pos h2] at h
      obtain rfl := Option.some.inj h
      have := hne _ h1
      simp only [List.length_drop]
      omega
    · rw [if_neg h2] at h
      cases h
  · rw [if_neg h1] at h
    by_cases h3 : t.head? = some '>'
    · rw [if_pos h3] at h
      obtain rfl := Option.some.inj h
      have := hne _ h3
      simp only [List.length_drop]
      omega
    · rw [if_neg h3] at h
      cases h

/-- A match of `(?i)<br\s*/?>` at the head (src/tools.py line 92): `<br`
case-insensitively, then the greedy whitespace run, then `/?>` (the
optional `/` cannot backtrack into `\s*` since `/` is not whitespace). -/
def matchBr (cs : List Char) : Option (List Char) :=
  match cs with
  | c :: rest =>
    if c = '<' && startsCi "br".data rest then
      brTail ((rest.drop 2).dropWhile pyIsSpace)
    else none
  | [] => none

theorem matchBr_length_lt (cs rest : List Char) (h : matchBr cs = some rest) :
    rest.length < cs.length := by
  match cs with
  | [] => simp [matchBr] at h
  | c :: tl =>
    rw [matchBr] at h
    by_cases hc : (c = '<' && startsCi "br".data tl) = true
    · rw [if_pos hc] at h
      have h1 := brTail_length_lt _ _ h
      have h2 : ((tl.drop 2).dropWhile pyIsSpace).length ≤ tl.length :=
        (dropWhile_length_le _ _).trans (by simp only [List.length_drop]; omega)
      simp only [List.length_cons]
      omega
    · rw [if_neg hc] at h
      cases h

def stepBr (cs : List Char) : Option (List Char × List Char) :=
  (matchBr cs).map fun rest => (['\n'], rest)

theorem stepBr_shrinks : StepShrinks stepBr := by
  intro cs p h
  rw [stepBr] at h
  cases hm : matchBr cs with
  | none => rw [hm] at h; cases h
  | some rest =>
    rw [hm] at h
    obtain rfl : (['\n'], rest) = p := by simpa using h
    exact matchBr_length_lt _ _ hm

/-- Second pass: `re.sub(r"(?i)<br\s*/?>", "\n", text)`. -/
def brToNewline (cs : List Char) : List Char :=
  reSub stepBr cs

/-- The block-level closing tags of the third pass (src/tools.py lines
93-97), `h[1-6]` expanded. -/
def closeTagList : List (List Char) :=
  ["p", "div", "li", "h1", "h2", "h3", "h4", "h5", "h6", "tr", "section",
    "article", "ul", "ol", "table", "blockquote"].map String.data

/-- Try each closing-tag alternative in order (they are mutually
exclusive as prefixes, so order does not matter): tag name then a
literal `>`. -/
def matchCloseGo (rest : List Char) : List (List Char) → Option (List Char)
  | [] => none
  | tag :: tags =>
    if startsCi tag rest = true ∧ (rest.drop tag.length).head? = some '>' then
      some (rest.drop (tag.length + 1))
    else matchCloseGo rest tags

/-- A match of `(?i)</(p|div|li|h[1-6]|tr|section|article|ul|ol|table|blockquote)>`
at the head: a literal `</`, then one of the alternatives and `>`. -/
def matchClose (cs : List Char) : Option (List Char) :=
  if cs.head? = some '<' ∧ cs.tail.head? = some '/' then
    matchCloseGo (cs.drop 2) closeTagList
  else none

theorem matchCloseGo_length_lt (rest : List Char) :
    ∀ tags r, matchCloseGo rest tags = some r → r.length < rest.length := by
  intro tags
  induction tags with
  | nil => intro r h; cases h
  | cons tag tl ih =>
    intro r h
    rw [matchCloseGo] at h
    by_cases h0 : startsCi tag rest = true ∧ (rest.drop tag.length).head? = some '>'
    · rw [if_pos h0] at h
      obtain rfl := Option.some.inj h
      have h1 : (rest.drop tag.length).length ≠ 0 := by
        intro hz
        rw [List.length_eq_zero] at hz
        rw [hz] at h0
        cases h0.2
      simp only [List.length_drop] at h1 ⊢
      omega
    · rw [if_neg h0] at h
      exact ih r h

theorem matchClose_length_lt (cs rest : List Char)
    (h : matchClose cs = some rest) : rest.length < cs.length := by
  unfold matchClose at h
  by_cases hc : cs.head? = some '<' ∧ cs.tail.head? = some '/'
  · rw [if_pos hc] at h
    have h1 := matchCloseGo_length_lt _ _ _ h
    simp only [List.length_drop] at h1
    omega
  · rw [if_neg hc] at h
    cases h

def stepClose (cs : List Char) : Option (List Char × List Char) :=
  (matchClose cs).map fun rest => (['\n'], rest)

theorem stepClose_shrinks : StepShrinks stepClose := by
  intro cs p h
  rw [stepClose] at h
  cases hm : matchClose cs with
  | none => rw [hm] at h; cases h
  | some rest =>
    rw [hm] at h
    obtain rfl : (['\n'], rest) = p := by simpa using h
    exact matchClose_length_lt _ _ hm

/-- Third pass: block-closing tags to newline. -/
def closeTagsToNewline (cs : List Char) : List Char :=
  reSub stepClose cs

/-- A match of `(?s)<[^>]+>` at the head (src/tools.py line 98): `<`,
at least one non-`>` character, then the first `>`. -/
def matchTag (cs : List Char) : Option (List Char) :=
  if cs.head? = some '<' ∧ cs.tail.head? ≠ some '>' ∧ cs.tail ≠ [] then
    findCi ['>'] cs.tail
  else none

theorem matchTag_length_lt (cs rest : List Char) (h : matchTag cs = some rest) :
    rest.length < cs.length := by
  unfold matchTag at h
  by_cases hc : cs.head? = some '<' ∧ cs.tail.head? ≠ some '>' ∧ cs.tail ≠ []
  · rw [if_pos hc] at h
    have h1 := findCi_length_le _ _ _ h
    have h2 : cs.length ≠ 0 := by
      intro hz
      rw [List.length_eq_zero] at hz
      rw [hz] at hc
      cases hc.1
    rw [List.length_tail] at h1
    omega
  · rw [if_neg hc] at h
    cases h

/-- Fourth pass: `re.sub(r"(?s)<[^>]+>", " ", text)` — remaining tags to
a space (`<>` is not a match: `[^>]+` needs at least one character). -/
def stepTag (cs : List Char) : Option (List Char × List Char) :=
  (matchTag cs).map fun rest => ([' '], rest)

theorem stepTag_shrinks : StepShrinks stepTag := by
  intro cs p h
  rw [stepTag] at h
  cases hm : matchTag cs with
  | none => rw [hm] at h; cases h
  | some rest =>
    rw [hm] at h
    obtain rfl : ([' '], rest) = p := by simpa using h
    exact matchTag_length_lt _ _ hm

def stripTags (cs : List Char) : List Char :=
  reSub stepTag cs

/-- Fifth pass, `html.unescape` (src/tools.py line 99): modelled from the
stdlib restricted to the basic named entities — the claims never depend
on the full entity table (the C7 equation is entity-agnostic and every
concrete input here is entity-free). -/
def stepEntity (cs : List Char) : Option (List Char × List Char) :=
  match cs with
  | c :: rest =>
    if c = '&' then
      if "amp;".data.isPrefixOf rest then some (['&'], rest.drop 4)
      else if "lt;".data.isPrefixOf rest then some (['<'], rest.drop 3)
      else if "gt;".data.isPrefixOf rest then some (['>'], rest.drop 3)
      else if "quot;".data.isPrefixOf rest then some (['"'], rest.drop 5)
      else if "#39;".data.isPrefixOf rest then some (['\''], rest.drop 4)
      else if "nbsp;".data.isPrefixOf rest then some (['\xa0'], rest.drop 5)
      else none
    else none
  | [] => none

theorem stepEntity_shrinks : StepShrinks stepEntity := by
  intro cs p h
  match cs with
  | [] => cases h
  | c :: rest =>
    rw [stepEntity] at h
    by_cases hc : c = '&'
    · rw [if_pos hc] at h
      split_ifs at h <;>
      · obtain rfl := Option.some.inj h
        simp only [List.length_drop, List.length_cons]
        omega
    · rw [if_neg hc] at h
      cases h

def unescapeHtml (cs : List Char) : List Char :=
  reSub stepEntity cs

/-- The class `[ \t\r\f\v]` of the sixth pass (whitespace except
newline). -/
def isSpaceNoNL (c : Char) : Bool :=
  c = ' ' || c = '\t' || c = '\r' || c = '\x0c' || c = '\x0b'

theorem dropWhile_cons_length_lt {α : Type} (p : α → Bool) (c : α)
    (cs : List α) : (cs.dropWhile p).length < (c :: cs).length :=
  Nat.lt_succ_of_le (dropWhile_length_le _ _)

def stepSpaces (cs : List Char) : Option (List Char × List Char) :=
  match cs with
  | c :: rest =>
    if isSpaceNoNL c then some ([' '], rest.dropWhile isSpaceNoNL) else none
  | [] => none

theorem stepSpaces_shrinks : StepShrinks stepSpaces := by
  intro cs p h
  match cs with
  | [] => cases h
  | c :: rest =>
    rw [stepSpaces] at h
    by_cases hc : isSpaceNoNL c = true
    · rw [if_pos hc] at h
      obtain rfl := Option.some.inj h
      exact dropWhile_cons_length_lt _ _ _
    · rw [if_neg hc] at h
      cases h

/-- Sixth pass: `re.sub(r"[ \t\r\f\v]+", " ", text)` — a maximal run to
one space. -/
def collapseSpaces (cs : List Char) : List Char :=
  reSub stepSpaces cs

def isSpaceTab (c : Char) : Bool :=
  c = ' ' || c = '\t'

def headIsSpaceTab (cs : List Char) : Bool :=
  match cs.head? with
  | some d => isSpaceTab d
  | none => false

def stepNLSpace (cs : List Char) : Option (List Char × List Char) :=
  match cs with
  | c :: rest =>
    if c = '\n' && headIsSpaceTab rest then
      some (['\n'], rest.dropWhile isSpaceTab)
    else none
  | [] => none

theorem stepNLSpace_shrinks : StepShrinks stepNLSpace := by
  intro cs p h
  match cs with
  | [] => cases h
  | c :: rest =>
    rw [stepNLSpace] at h
    by_cases hc : (c = '\n' && headIsSpaceTab rest) = true
    · rw [if_pos hc] at h
      obtain rfl := Option.some.inj h
      exact dropWhile_cons_length_lt _ _ _
    · rw [if_neg hc] at h
      cases h

/-- Seventh pass: `re.sub(r"\n[ \t]+", "\n", text)` — a newline followed
by a run of spaces/tabs keeps only the newline. -/
def stripAfterNewline (cs : List Char) : List Char :=
  reSub stepNLSpace cs

def isNLChar (c : Char) : Bool :=
  c = '\n'

def headIsNL (cs : List Char) : Bool :=
  match cs.head? with
  | some d => isNLChar d
  | none => false

def stepNLRun (cs : List Char) : Option (List Char × List Char) :=
  match cs with
  | c :: rest =>
    if c = '\n' && headIsNL rest && headIsNL rest.tail then
      some (['\n', '\n'], rest.dropWhile isNLChar)
    else none
  | [] => none

theorem stepNLRun_shrinks : StepShrinks stepNLRun := by
  intro cs p h
  match cs with
  | [] => cases h
  | c :: rest =>
    rw [stepNLRun] at h
    by_cases hc : (c = '\n' && headIsNL rest && headIsNL rest.tail) = true
    · rw [if_pos hc] at h
      obtain rfl := Option.some.inj h
      exact dropWhile_cons_length_lt _ _ _
    · rw [if_neg hc] at h
      cases h

/-- Eighth pass: `re.sub(r"\n{3,}", "\n\n", text)` — a run of three or
more newlines becomes exactly two. -/
def squeezeNewlines (cs : List Char) : List Char :=
  reSub stepNLRun cs

/-- `simple_html_to_text` (src/tools.py lines 89-103): the regex-based
fallback — strip script/style/noscript blocks, `<br>` and block-closing
tags to newlines, strip remaining tags, decode entities, collapse
whitespace, squeeze blank lines, trim. -/
def simple_html_to_text (html : List Char) : List Char :=
  pyStrip (squeezeNewlines (stripAfterNewline (collapseSpaces (unescapeHtml
    (stripTags (closeTagsToNewline (brToNewline (removeBlocks html))))))))

def stepAllWs (cs : List Char) : Option (List Char × List Char) :=
  match cs with
  | c :: rest =>
    if pyIsSpace c then some ([' '], rest.dropWhile pyIsSpace)
    else none
  | [] => none

theorem stepAllWs_shrinks : StepShrinks stepAllWs := by
  intro cs p h
  match cs with
  | [] => cases h
  | c :: rest =>
    rw [stepAllWs] at h
    by_cases hc : pyIsSpace c = true
    · rw [if_pos hc] at h
      obtain rfl := Option.some.inj h
      exact dropWhile_cons_length_lt _ _ _
    · rw [if_neg hc] at h
      cases h

/-- `\s+` → one space (used on the title). -/
def collapseAllWs (cs : List Char) : List Char :=
  reSub stepAllWs cs

/-- `extract_title_from_html` (src/tools.py lines 80-86):
`re.search(r"(?is)<title[^>]*>(.*?)</title>", html)` — first `<title`,
its first `>`, content lazily up to the first `</title>` (if any part is
missing no later start can succeed either, so the result is `""`) —
then entity-decode, collapse whitespace, strip. -/
def extract_title_from_html (html : List Char) : List Char :=
  match findCi "<title".data html with
  | none => []
  | some r1 =>
    match findCi ['>'] r1 with
    | none => []
    | some r2 =>
      match splitCi "</title>".data r2 with
      | none => []
      | some p => pyStrip (collapseAllWs (unescapeHtml p.1))

/-- The fallback branch of `extract_readable_text` (src/tools.py lines
106-145): when `trafilatura` is unavailable (its import is optional) or
extracts nothing, the result is the `<title>` text and the
`simple_html_to_text` transform. -/
def extract_readable_text_fallback (html : List Char) : List Char × List Char :=
  (extract_title_from_html html, simple_html_to_text html)

/-! ## `tools.py` : SearXNG search -/

def SEARXNG_MAX_RETRIES : Nat := 2

/-- A raw result dict from the SearXNG JSON API as read by
`_deduplicate_results` / `_format_search_results`; `none` models an absent
key (or JSON `null`).  Values of unexpected runtime type for `engines`
are outside the model. -/
structure RawResult where
  url : Option String
  title : Option String
  content : Option String
  engines : Option (List String)
  publishedDate : Option String
  published_date : Option String
  deriving Repr, DecidableEq

/-- The query parameters `_fetch_searxng` sends to `<base>/search`
(src/tools.py lines 214-223).  `categories` / `time_range` are `none`
when the key is omitted from the request. -/
structure SearxParams where
  q : String
  format : String
  language : String
  pageno : Int
  categories : Option String
  time_range : Option String
  deriving Repr, DecidableEq

/-- Builds the outgoing SearXNG parameters (src/tools.py lines 214-223).
Note the membership test `time_range in {"day", "month", "year"}` on
line 222: `"week"` is not in the set. -/
def build_searx_params (query : String) (categories : Option (List String))
    (time_range : Option String) (pageno : Int) (language : Option String) :
    SearxParams :=
  { q := query
    format := "json"
    language := language.getD "en-US"
    pageno := max pageno 1
    categories :=
      match categories with
      | some cs => if cs = [] then none else some (String.intercalate "," cs)
      | none => none
    time_range :=
      match time_range with
      | some tr => if tr = "day" ∨ tr = "month" ∨ tr = "year" then some tr else none
      | none => none }

/-- The `results` field of the SearXNG JSON payload: either not a list
(`payload.get("results", [])` returned a non-list) or a list of raw
result dicts. -/
inductive ResultsField where
  | notList
  | list (rs : List RawResult)

/-- The retry loop of `_fetch_searxng` (src/tools.py lines 225-251): the
backend oracle maps (params, attempt number) to either an exception
(`Except.error`, covering connection errors, non-2xx and JSON decode
failures) or a payload.  Attempts run for `attempt in
range(1, SEARXNG_MAX_RETRIES + 2)`; exhaustion yields `none`. -/
def searx_attempts (backend : SearxParams → Nat → Except String ResultsField)
    (params : SearxParams) (cap : Int) :
    List Nat → Option (List RawResult)
  | [] => none
  | a :: rest =>
    match backend params a with
    | .error _ => searx_attempts backend params cap rest
    | .ok .notList => some []
    | .ok (.list rs) => some (rs.take (max cap 0).toNat)

/-- The result cap of `_fetch_searxng` (src/tools.py line 236):
`max_results if isinstance(max_results, int) else 5`. -/
def searx_cap (max_results : Option Int) : Int :=
  match max_results with
  | some m => m
  | none => 5

/-- The attempt numbers `range(1, SEARXNG_MAX_RETRIES + 2)`. -/
def searx_attempt_numbers : List Nat :=
  List.range (SEARXNG_MAX_RETRIES + 1) |>.map (· + 1)

/-- `_fetch_searxng` (src/tools.py lines 197-251).  `max_results` is
`none` when absent or not an `int`; the cap defaults to 5 and the slice
is `results[: max(cap, 0)]`. -/
def _fetch_searxng (backend : SearxParams → Nat → Except String ResultsField)
    (searxng_base_url : String) (query : String)
    (categories : Option (List String)) (time_range : Option String)
    (pageno : Int) (language : Option String) (max_results : Option Int) :
    List RawResult :=
  if searxng_base_url = "" ∨ query = "" then []
  else
    match searx_attempts backend
        (build_searx_params query categories time_range pageno language)
        (searx_cap max_results) searx_attempt_numbers with
    | some rs => rs
    | none => []

/-- `list(dict.fromkeys(l))`: deduplicate keeping the first occurrence of
each element, preserving order. -/
def nubFirst : List String → List String
  | [] => []
  | x :: xs => x :: (nubFirst xs).filter (fun y => y ≠ x)

/-- The cleaned URL key `(r.get("url") or "").strip()` used by
deduplication (src/tools.py line 258). -/
def cleanUrl (r : RawResult) : String :=
  pyStrTrim (r.url.getD "")

/-- The engine merge of src/tools.py lines 263-267: the surviving entry's
engines become the first-seen-order union of both engine lists (an absent
`engines` key reads as `[]`). -/
def updateEngines (e r : RawResult) : RawResult :=
  { e with engines := some (nubFirst (e.engines.getD [] ++ r.engines.getD [])) }

def assocFind (u : String) : List (String × RawResult) → Option RawResult
  | [] => none
  | (k, e) :: rest => if k = u then some e else assocFind u rest

/-- Replace the value stored under key `u` (in place, like the dict
assignment `seen[url]["engines"] = merged`). -/
def assocUpdate (u : String) (v : RawResult) (seen : List (String × RawResult)) :
    List (String × RawResult) :=
  seen.map fun p => if p.1 = u then (p.1, v) else p

/-- The `seen` dict loop of `_deduplicate_results` (src/tools.py lines
254-270); the association list keeps dict insertion order. -/
def dedupGo (seen : List (String × RawResult)) :
    List RawResult → List (String × RawResult)
  | [] => seen
  | r :: rest =>
    let url := cleanUrl r
    if url = "" then dedupGo seen rest
    else
      match assocFind url seen with
      | some e => dedupGo (assocUpdate url (updateEngines e r) seen) rest
      | none => dedupGo (seen ++ [(url, r)]) rest

/-- `_deduplicate_results` (src/tools.py lines 254-270): remove duplicate
results by URL, merging engine lists; returns `list(seen.values())`. -/
def _deduplicate_results (results : List RawResult) : List RawResult :=
  (dedupGo [] results).map (·.2)

/-- A formatted entry of `_format_search_results` (src/tools.py lines
273-290). -/
structure FormattedResult where
  title : String
  url : String
  snippet : String
  engines : List String
  published_date : Option String
  deriving Repr, DecidableEq

/-- Python truthiness chain `a or b or ""` over two optional strings. -/
def pyOrStr (a b : Option String) : String :=
  match a with
  | some s => if s ≠ "" then s else (b.getD "")
  | none => b.getD ""

/-- `_format_search_results` (src/tools.py lines 273-290). -/
def _format_search_results (results : List RawResult) : List FormattedResult :=
  results.map fun r =>
    let pub := pyOrStr r.publishedDate r.published_date
    { title := pyStrTrim (r.title.getD "")
      url := pyStrTrim (r.url.getD "")
      snippet := pyStrTrim (r.content.getD "")
      engines := r.engines.getD []
      published_date :=
        if pyStrTrim pub ≠ "" then some (pyStrTrim pub) else none }

/-- The arguments of a `web_search` tool call after the `isinstance`
guards of src/tools.py lines 301-327: a field is `none` when the key is
absent or of the wrong runtime type (both behave identically in the
source); `query` is the already-stringified `str(arguments.get("query")
or "")`. -/
structure SearchArgs where
  query : String
  categories : Option (List String)
  time_range : Option String
  language : Option String
  pageno : Option Int
  max_results : Option Int
  deriving Repr, DecidableEq

/-- The result dict of `run_web_search_tool`: either `{"error": ...}` or
`{"query": ..., "result_count": ..., "results": [...]}`. -/
inductive SearchOut where
  | err (msg : String)
  | ok (query : String) (result_count : Nat) (results : List FormattedResult)
  deriving Repr, DecidableEq

/-- `run_web_search_tool` (src/tools.py lines 296-344). -/
def run_web_search_tool (backend : SearxParams → Nat → Except String ResultsField)
    (searxng_base_url : String) (args : SearchArgs) : SearchOut :=
  let query := pyStrTrim args.query
  if query = "" then .err "query is required"
  else
    let pageno := args.pageno.getD 1
    let raw := _fetch_searxng backend searxng_base_url query args.categories
      args.time_range pageno args.language args.max_results
    let deduped := _deduplicate_results raw
    let formatted := _format_search_results deduped
    .ok query formatted.length formatted

/-- The `enum` of the `time_range` parameter in the `web_search` tool
schema sent to the model (src/llm.py lines 157-164). -/
def time_range_enum : List String := ["day", "week", "month", "year"]

/-- The `maximum` declared for `max_results` in the `web_search` tool
schema (src/llm.py line 177). -/
def max_results_schema_maximum : Int := 10

/-- Projection of the result count out of a search tool result. -/
def searchCountOf : SearchOut → Nat
  | .err _ => 0
  | .ok _ n _ => n

/-- Specification-side description of URL deduplication's key sequence:
one entry per distinct non-empty string, in first-seen order. -/
def firstSeenNonEmpty : List String → List String
  | [] => []
  | u :: us =>
    if u = "" then firstSeenNonEmpty us
    else u :: (firstSeenNonEmpty us).filter (fun v => v ≠ u)

/-- Accumulator form of `firstSeenNonEmpty`, tracking already-seen keys. -/
def fsAux (ks : List String) : List String → List String
  | [] => []
  | u :: us =>
    if u = "" ∨ u ∈ ks then fsAux ks us
    else u :: fsAux (ks ++ [u]) us

/-- The `(url, entry)` pairs a run of fresh-URL results inserts into the
`seen` dict. -/
def toPairs (rs : List RawResult) : List (String × RawResult) :=
  rs.map fun r => (cleanUrl r, r)

/-! ## `tools.py` : fetch / render tools and the URL cache -/

def DEFAULT_MAX_CHARS : Int := 20000

def DEFAULT_RENDER_MAX_CHARS : Int := 20000

def URL_CACHE_TTL : Int := 300

/-- The clamped character limit of `run_web_fetch_tool` (src/tools.py
lines 414-417): the default when `max_chars` is absent or non-int, then
`max(500, min(max_chars, DEFAULT_MAX_CHARS))`. -/
def fetch_max_chars (m : Option Int) : Int :=
  max 500 (min (m.getD DEFAULT_MAX_CHARS) DEFAULT_MAX_CHARS)

/-- Same clamp for `run_web_render_tool` (src/tools.py lines 501-504). -/
def render_max_chars (m : Option Int) : Int :=
  max 500 (min (m.getD DEFAULT_RENDER_MAX_CHARS) DEFAULT_RENDER_MAX_CHARS)

/-- `wait_seconds` normalisation of `run_web_render_tool` (src/tools.py
lines 506-509): non-numeric or negative becomes 0, then capped at 10. -/
def render_wait_seconds (w : Option ℚ) : ℚ :=
  min (match w with | some x => if x < 0 then 0 else x | none => 0) 10

/-- The result dict that `run_web_fetch_tool` / `run_web_render_tool`
build (src/tools.py lines 455-467 and 550-561).  Optional fields model
keys that one of the two tools omits (`content_type` and
`bytes_truncated` appear only in fetch results, `links` only when
requested and non-empty); `full_text` models the internal `"_full_text"`
key that is stored in the cache copy. -/
structure PageResult where
  url : String
  final_url : String
  status_code : Option Int
  content_type : Option String
  title : List Char
  text : List Char
  text_length : Nat
  text_truncated : Bool
  bytes_truncated : Option Bool
  links : Option (List String)
  full_text : Option (List Char)
  deriving Repr, DecidableEq

/-- Return value of the fetch/render tools: `{"error": ...}` (URL
validation), `{"url": ..., "error": ...}` (network/render failure,
missing playwright), or the full result dict. -/
inductive FetchOutcome where
  | errOnly (error : String)
  | errUrl (url : String) (error : String)
  | ok (r : PageResult)
  deriving Repr, DecidableEq

/-- The in-memory URL cache `_url_cache` (src/tools.py line 38):
key ↦ (timestamp, result dict).  `time.time()` values are modelled as an
integer clock. -/
abbrev Cache := List (String × Int × PageResult)

def cacheFind (key : String) : Cache → Option (Int × PageResult)
  | [] => none
  | (k, ts, e) :: rest => if k = key then some (ts, e) else cacheFind key rest

def cacheDelete (key : String) (c : Cache) : Cache :=
  c.filter fun p => decide (p.1 ≠ key)

/-- `_get_cached` (src/tools.py lines 42-51): lazily expire an entry
older than the TTL (deleting it), otherwise return it. -/
def _get_cached (now : Int) (key : String) (c : Cache) :
    Option PageResult × Cache :=
  match cacheFind key c with
  | none => (none, c)
  | some (ts, e) =>
    if now - ts > URL_CACHE_TTL then (none, cacheDelete key c)
    else (some e, c)

/-- `_set_cached` (src/tools.py lines 54-55): store under the key with
the current time (dict assignment keeps keys unique). -/
def _set_cached (now : Int) (key : String) (e : PageResult) (c : Cache) : Cache :=
  (key, now, e) :: cacheDelete key c

/-- The cache-hit path shared by fetch and render (src/tools.py lines
422-428 and 514-519): re-truncate the cached full text
(`cached.get("_full_text", cached.get("text", ""))`) to the *current*
clamped limit, recompute the flag, and drop the `"_full_text"` key. -/
def cachedResult (cached : PageResult) (maxChars : Int) : PageResult :=
  let text := match cached.full_text with | some t => t | none => cached.text
  let et := truncate_text text maxChars
  { cached with text := et.1, text_truncated := et.2, full_text := none }

/-- The fields of `_http_get`'s success dict (src/tools.py lines
355-393).  The whole of `_http_get` — network I/O, byte capping,
decoding, and `_detect_content_type` — is abstracted as an oracle
producing these fields; its `{"error": f"HTTP request failed: {...}"}`
path is `Except.error` carrying that message. -/
structure HttpGetOk where
  status_code : Int
  final_url : String
  content_type : String
  body_text : List Char
  is_html : Bool
  is_textual : Bool
  bytes_truncated : Bool

/-- Arguments of a fetch/render tool call; `none` models an absent key or
one of the wrong runtime type (treated identically by the source's
`isinstance` guards); `url` is `str(arguments.get("url") or "")`. -/
structure UrlToolArgs where
  url : Option String
  include_links : Option Bool
  max_chars : Option Int
  wait_seconds : Option ℚ

/-- The `(title, text, links)` computation of `run_web_fetch_tool`
(src/tools.py lines 439-451): pretty-printed JSON, else HTML extraction
(links only when requested), else the stripped body as-is. -/
def fetch_text_links (extract : List Char → String → List Char × List Char)
    (fmtJson : String → List Char → Option (List Char))
    (exLinks : List Char → String → List String)
    (include_links : Bool) (raw : HttpGetOk) :
    List Char × List Char × List String :=
  match fmtJson raw.content_type raw.body_text with
  | some pretty => (([] : List Char), pretty, ([] : List String))
  | none =>
    if raw.is_html then
      let te := extract raw.body_text raw.final_url
      (te.1, te.2,
        if include_links then exLinks raw.body_text raw.final_url else [])
    else ([], pyStrip raw.body_text, [])

/-- The success result dict of `run_web_fetch_tool` (src/tools.py lines
453-467), for the computed `(title, text, links)` triple `ttl`. -/
def fetch_result (url : String) (raw : HttpGetOk) (include_links : Bool)
    (maxChars : Int) (ttl : List Char × List Char × List String) : PageResult :=
  { url := url, final_url := raw.final_url
    status_code := some raw.status_code
    content_type := some raw.content_type
    title := ttl.1
    text := (truncate_text ttl.2.1 maxChars).1
    text_length := ttl.2.1.length
    text_truncated := (truncate_text ttl.2.1 maxChars).2
    bytes_truncated := some raw.bytes_truncated
    links := if include_links && !(ttl.2.2).isEmpty then some ttl.2.2 else none
    full_text := none }

/-- `run_web_fetch_tool` (src/tools.py lines 396-472).  Oracles:
`net` models `_http_get`; `extract` models `extract_readable_text`
(title, text); `fmtJson` models `_format_json_if_applicable`; `exLinks`
models `extract_links_from_html`. -/
def run_web_fetch_tool (net : String → Except String HttpGetOk)
    (extract : List Char → String → List Char × List Char)
    (fmtJson : String → List Char → Option (List Char))
    (exLinks : List Char → String → List String)
    (now : Int) (cache : Cache) (args : UrlToolArgs) :
    FetchOutcome × Cache :=
  let url := pyStrTrim (args.url.getD "")
  match _validate_url url with
  | some e => (.errOnly e, cache)
  | none =>
    let include_links := args.include_links.getD true
    let max_chars := fetch_max_chars args.max_chars
    let key := "fetch:" ++ url
    match _get_cached now key cache with
    | (some cached, cache1) => (.ok (cachedResult cached max_chars), cache1)
    | (none, cache1) =>
      match net url with
      | .error e => (.errUrl url e, cache1)
      | .ok raw =>
        let ttl := fetch_text_links extract fmtJson exLinks include_links raw
        let result := fetch_result url raw include_links max_chars ttl
        (.ok result,
          _set_cached now key { result with full_text := some ttl.2.1 } cache1)

/-- What the browser page load of `run_web_render_tool` yields
(src/tools.py lines 530-541): status (possibly `None`), final URL, and
the fully rendered HTML.  Navigation/render exceptions are
`Except.error`. -/
structure RenderOk where
  status_code : Option Int
  final_url : String
  html : List Char

/-- The success result dict of `run_web_render_tool` (src/tools.py lines
548-561), for extraction output `te = (title, text)` and extracted
`links`. -/
def render_result (url : String) (ro : RenderOk) (include_links : Bool)
    (maxChars : Int) (te : List Char × List Char) (links : List String) :
    PageResult :=
  { url := url, final_url := ro.final_url
    status_code := ro.status_code
    content_type := none
    title := te.1
    text := (truncate_text te.2 maxChars).1
    text_length := te.2.length
    text_truncated := (truncate_text te.2 maxChars).2
    bytes_truncated := none
    links := if include_links && !links.isEmpty then some links else none
    full_text := none }

/-- `run_web_render_tool` (src/tools.py lines 482-564).  `pwAvailable`
models whether the `playwright` import succeeds. -/
def run_web_render_tool (browser : String → ℚ → Except String RenderOk)
    (pwAvailable : Bool)
    (extract : List Char → String → List Char × List Char)
    (exLinks : List Char → String → List String)
    (now : Int) (cache : Cache) (args : UrlToolArgs) :
    FetchOutcome × Cache :=
  let url := pyStrTrim (args.url.getD "")
  match _validate_url url with
  | some e => (.errOnly e, cache)
  | none =>
    let include_links := args.include_links.getD true
    let max_chars := render_max_chars args.max_chars
    let wait_seconds := render_wait_seconds args.wait_seconds
    let key := "render:" ++ url
    match _get_cached now key cache with
    | (some cached, cache1) => (.ok (cachedResult cached max_chars), cache1)
    | (none, cache1) =>
      if !pwAvailable then
        (.errUrl url
          "playwright is not installed. Run: pip install playwright && playwright install chromium",
          cache1)
      else
        match browser url wait_seconds with
        | .error e => (.errUrl url ("Browser render failed: " ++ e), cache1)
        | .ok ro =>
          let te := extract ro.html ro.final_url
          let links := if include_links then exLinks ro.html ro.final_url else []
          let result := render_result url ro include_links max_chars te links
          (.ok result,
            _set_cached now key { result with full_text := some te.2 } cache1)

/-- Cache well-formedness: every stored entry carries its full text under
`"_full_text"` and reports that text's true length — which holds for
every entry the two tools themselves store. -/
def CacheWF (c : Cache) : Prop :=
  ∀ k ts e, (k, ts, e) ∈ c → ∃ f, e.full_text = some f ∧ e.text_length = f.length

/-! ## `llm.py` : tool dispatch and the agent loop -/

/-- `MAX_TOOL_STEPS` (src/config.py line 69). -/
def MAX_TOOL_STEPS : Nat := 16

/-- The tool names `_execute_tool` recognises (src/llm.py lines 285-290). -/
def KNOWN_TOOL_NAMES : List String := ["web_search", "web_fetch", "web_render"]

/-- A tool result dict as the dispatcher returns it to the loop: the
payload of one of the three tools, or a bare `{"error": ...}` dict. -/
inductive ToolRet where
  | searchOut (o : SearchOut)
  | pageOut (o : FetchOutcome)
  | errorOnly (msg : String)
  deriving Repr, DecidableEq

/-- `_execute_tool` (src/llm.py lines 282-291): string dispatch on the
tool name.  The three tool implementations are oracles over an abstract
parsed-arguments type `α` (the parsed JSON dict); a Python exception
raised inside an implementation is `Except.error`.  An unrecognised name
returns the structured `{"error": "Unknown tool: <name>"}` dict — no
exception. -/
def _execute_tool {α : Type}
    (runSearch runFetch runRender : α → Except String ToolRet)
    (tool_name : String) (parsed_args : α) : Except String ToolRet :=
  if tool_name = "web_search" then runSearch parsed_args
  else if tool_name = "web_fetch" then runFetch parsed_args
  else if tool_name = "web_render" then runRender parsed_args
  else .ok (.errorOnly ("Unknown tool: " ++ tool_name))

/-- The `try/except` around `_execute_tool` inside `ai_answer`
(src/llm.py lines 377-382): an exception becomes
`{"error": f"{tool_name} execution failed: {exc}"}`.  Total by
construction: the loop always receives a `ToolRet`, never an
exception. -/
def safe_execute_tool {α : Type}
    (runSearch runFetch runRender : α → Except String ToolRet)
    (tool_name : String) (parsed_args : α) : ToolRet :=
  match _execute_tool runSearch runFetch runRender tool_name parsed_args with
  | .ok r => r
  | .error exc => .errorOnly (tool_name ++ " execution failed: " ++ exc)

/-- A tool call requested by the assistant: `{id, name, raw-argument
string}` (src/llm.py lines 369-371). -/
structure ToolCallReq where
  id : String
  name : String
  arguments : String
  deriving Repr, DecidableEq

/-- An assistant completion message: its visible text (already
normalised by `message_content_to_text`, modelled as a plain string) and
the requested tool calls (`[]` models both `None` and an empty list). -/
structure AssistantMsg where
  content : String
  tool_calls : List ToolCallReq

/-- A message of the conversation history built by `ai_answer`. -/
inductive Msg where
  | system (content : String)
  | user (content : String)
  | assistant (m : AssistantMsg)
  | tool (tool_call_id : String) (name : String) (content : String)

/-- The extra system instruction appended when the step budget is
exhausted (src/llm.py lines 405-413). -/
def FALLBACK_INSTRUCTION : String :=
  "Tool attempts are complete. Provide a best-effort final answer now using available context and any successful tool outputs. If uncertainty remains, acknowledge it briefly."

/-- Apology returned when a tool-free response is empty after trimming
(src/llm.py line 402). -/
def APOLOGY_NO_RESPONSE : String :=
  "I'm sorry, I couldn't generate a response right now."

/-- Apology returned when fallback and every candidate answer are empty
(src/llm.py line 436). -/
def APOLOGY_NO_RELIABLE : String :=
  "I'm sorry, I couldn't generate a reliable answer right now."

/-- The tool-role messages appended for one assistant turn (src/llm.py
lines 369-396): each call's JSON arguments are parsed (`parse`; a decode
failure yields `none` and degrades to the empty-arguments value
`empty_args`), dispatched through the exception-catching boundary, and
serialised by `dumps` (modelling `json.dumps`). -/
def tool_messages {α : Type} (parse : String → Option α) (empty_args : α)
    (dumps : ToolRet → String)
    (runSearch runFetch runRender : α → Except String ToolRet)
    (calls : List ToolCallReq) : List Msg :=
  calls.map fun tc =>
    .tool tc.id tc.name
      (dumps (safe_execute_tool runSearch runFetch runRender tc.name
        ((parse tc.arguments).getD empty_args)))

/-- The iteration of `ai_answer` (src/llm.py lines 330-436), fuel =
remaining loop steps, returning `(answer, number of completion requests
issued)`.  `model b msgs` is one completion request (`b` = whether the
tool schemas are offered, i.e. a main-loop step vs the fallback
request); `last` threads `last_assistant_text`.  At fuel 0 the system
instruction is appended and one final tool-free request issued; the
answer falls back to the last non-empty assistant text, then to a fixed
apology. -/
def ai_answer_loop {α : Type} (model : Bool → List Msg → AssistantMsg)
    (parse : String → Option α) (empty_args : α) (dumps : ToolRet → String)
    (runSearch runFetch runRender : α → Except String ToolRet) :
    Nat → List Msg → String → String × Nat
  | 0, messages, last =>
    let fallback := model false (messages ++ [.system FALLBACK_INSTRUCTION])
    let fallback_text := pyStrTrim fallback.content
    (if fallback_text ≠ "" then fallback_text
     else if last ≠ "" then last
     else APOLOGY_NO_RELIABLE, 1)
  | n + 1, messages, _ =>
    let am := model true messages
    let last2 := pyStrTrim am.content
    if am.tool_calls ≠ [] then
      let messages2 := messages ++ [.assistant am] ++
        tool_messages parse empty_args dumps runSearch runFetch runRender
          am.tool_calls
      let r := ai_answer_loop model parse empty_args dumps
        runSearch runFetch runRender n messages2 last2
      (r.1, r.2 + 1)
    else
      (if pyStrTrim am.content = "" then APOLOGY_NO_RESPONSE
       else pyStrTrim am.content, 1)

/-- `ai_answer` (src/llm.py lines 294-436): initial history = system
message + user message (transcript and images are upstream inputs,
passed in as the opaque `user_content`), then the bounded loop. -/
def ai_answer {α : Type} (model : Bool → List Msg → AssistantMsg)
    (parse : String → Option α) (empty_args : α) (dumps : ToolRet → String)
    (runSearch runFetch runRender : α → Except String ToolRet)
    (system_message user_content : String) : String × Nat :=
  ai_answer_loop model parse empty_args dumps runSearch runFetch runRender
    MAX_TOOL_STEPS [.system system_message, .user user_content] ""

/-! ### Concrete instances used by witnesses and counterexamples -/

/-- A model oracle that requests one `web_search` call on every
tool-enabled step and answers plainly on the (tool-free) fallback
request. -/
def modelAlwaysTool : Bool → List Msg → AssistantMsg := fun b _ =>
  if b then { content := "", tool_calls := [⟨"call1", "web_search", ""⟩] }
  else { content := "Best-effort answer", tool_calls := [] }

def parseUnit : String → Option Unit := fun _ => some ()

def dumpsConst : ToolRet → String := fun _ => "r"

def toolOk : Unit → Except String ToolRet := fun _ => .ok (.errorOnly "e")

def toolBoom : Unit → Except String ToolRet := fun _ => .error "boom"

/-- Two raw results sharing a URL with different engine lists. -/
def rawA : RawResult :=
  { url := some "https://e.com", title := some "A", content := none
    engines := some ["google"], publishedDate := none, published_date := none }

def rawB : RawResult :=
  { url := some "https://e.com", title := some "B", content := none
    engines := some ["bing", "google"], publishedDate := none
    published_date := none }

def mkRaw (u : String) : RawResult :=
  { url := some u, title := none, content := none, engines := none
    publishedDate := none, published_date := none }

/-- Eleven distinct-URL raw results, as a SearXNG backend could return
on one page. -/
def elevenRaw : List RawResult :=
  ["u1", "u2", "u3", "u4", "u5", "u6", "u7", "u8", "u9", "u10", "u11"].map mkRaw

/-- A backend oracle that always answers with the eleven results. -/
def backendEleven : SearxParams → Nat → Except String ResultsField :=
  fun _ _ => .ok (.list elevenRaw)

/-- A `web_search` call supplying `max_results = 11` (the schema caps the
field at 10, but the dispatcher never validates it). -/
def argsMax11 : SearchArgs :=
  { query := "test", categories := none, time_range := none, language := none
    pageno := none, max_results := some 11 }

/-- A `web_search` call supplying `max_results = 3`. -/
def argsMax3 : SearchArgs :=
  { query := "test", categories := none, time_range := none, language := none
    pageno := none, max_results := some 3 }

/-- A fixed plain-text HTTP response used as a network oracle value. -/
def rawHello : HttpGetOk :=
  { status_code := 200, final_url := "http://e/x"
    content_type := "text/plain", body_text := "  hello  ".data
    is_html := false, is_textual := true, bytes_truncated := false }

def netHello : String → Except String HttpGetOk := fun _ => .ok rawHello

def extractNil : List Char → String → List Char × List Char := fun _ _ => ([], [])

def fmtJsonNone : String → List Char → Option (List Char) := fun _ _ => none

def exLinksNil : List Char → String → List String := fun _ _ => []

def roHello : RenderOk :=
  { status_code := some 200, final_url := "http://e/x", html := "<p>hi</p>".data }

def browserHello : String → ℚ → Except String RenderOk := fun _ _ => .ok roHello

def argsUrlX : UrlToolArgs :=
  { url := some "http://e/x", include_links := some false
    max_chars := some 1000, wait_seconds := none }

/-- Same URL as `argsUrlX` but a different `max_chars`. -/
def argsUrlX2 : UrlToolArgs :=
  { url := some "http://e/x", include_links := some false
    max_chars := some 600, wait_seconds := none }

def demoTTL : List Char × List Char × List String :=
  fetch_text_links extractNil fmtJsonNone exLinksNil false rawHello

def fetchDemoResult : PageResult :=
  fetch_result "http://e/x" rawHello false (fetch_max_chars (some 1000)) demoTTL

def fetchDemoCache : Cache :=
  _set_cached 0 "fetch:http://e/x"
    { fetchDemoResult with full_text := some demoTTL.2.1 } []

def renderDemoResult : PageResult :=
  render_result "http://e/x" roHello false (render_max_chars (some 1000))
    (extractNil roHello.html roHello.final_url) []

def renderDemoCache : Cache :=
  _set_cached 0 "render:http://e/x"
    { renderDemoResult with
        full_text := some (extractNil roHello.html roHello.final_url).2 } []

end HelperBot

open HelperBot

/-- **C9.** The trigger pattern matches `"u/grok what is this?"`,
`"@AI hello"` and `"  [u/gemini hi"` at string start case-insensitively,
and does not match `"hello u/grok"` or `"groktest"`. -/
theorem claim_C9 :
    trigger_match "u/grok what is this?" = true ∧
    trigger_match "@AI hello" = true ∧
    trigger_match "  [u/gemini hi" = true ∧
    trigger_match "hello u/grok" = false ∧
    trigger_match "groktest" = false := by
  decide

/-- **C6.** Claimed: for every `web_search` invocation whose `time_range`
argument is one of the schema's enum values — `day`, `week`, `month` or
`year` — the outgoing request to the metasearch backend includes that
value as its `time_range` parameter.  The code violates this for
`"week"`: `"week"` is in the schema enum the model is given
(src/llm.py line 159), but the membership test on src/tools.py line 222
is `time_range in {"day", "month", "year"}`, so a `"week"` request is
sent with **no** `time_range` parameter.  The other three enum values are
forwarded as claimed. -/
theorem claim_C6 (q : String) (cats : Option (List String)) (pg : Int)
    (lang : Option String) :
    "week" ∈ time_range_enum ∧
    (build_searx_params q cats (some "week") pg lang).time_range = none ∧
    (build_searx_params q cats (some "day") pg lang).time_range = some "day" ∧
    (build_searx_params q cats (some "month") pg lang).time_range = some "month" ∧
    (build_searx_params q cats (some "year") pg lang).time_range = some "year" := by
  refine ⟨by decide, rfl, rfl, rfl, rfl⟩

/-- Witness for `claim_C6` at concrete arguments (the theorem has only
data binders, but we also record a closed instance). -/
theorem claim_C6_witness :
    (build_searx_params "news" none (some "week") 1 none).time_range = none ∧
    (build_searx_params "news" none (some "day") 1 none).time_range = some "day" :=
  ⟨(claim_C6 "news" none 1 none).2.1, (claim_C6 "news" none 1 none).2.2.1⟩

/-! ### Lemmas about deduplication and the result cap -/

theorem assocUpdate_length (u : String) (v : RawResult)
    (seen : List (String × RawResult)) :
    (assocUpdate u v seen).length = seen.length := by
  simp [assocUpdate]

theorem dedupGo_length_le (rs : List RawResult) :
    ∀ seen, (dedupGo seen rs).length ≤ seen.length + rs.length := by
  induction rs with
  | nil => intro seen; simp [dedupGo]
  | cons r rest ih =>
    intro seen
    simp only [dedupGo, List.length_cons]
    by_cases h0 : cleanUrl r = ""
    · rw [if_pos h0]
      exact (ih seen).trans (by omega)
    · rw [if_neg h0]
      cases hfind : assocFind (cleanUrl r) seen with
      | some e =>
        have h2 := ih (assocUpdate (cleanUrl r) (updateEngines e r) seen)
        rw [assocUpdate_length] at h2
        exact h2.trans (by omega)
      | none =>
        have h2 := ih (seen ++ [(cleanUrl r, r)])
        simp only [List.length_append, List.length_cons, List.length_nil] at h2
        exact h2.trans (by omega)

theorem dedup_length_le (rs : List RawResult) :
    (_deduplicate_results rs).length ≤ rs.length := by
  have := dedupGo_length_le rs []
  simpa [_deduplicate_results] using this

theorem searx_attempts_length_le
    (backend : SearxParams → Nat → Except String ResultsField)
    (params : SearxParams) (cap : Int) (attempts : List Nat)
    (rs : List RawResult)
    (h : searx_attempts backend params cap attempts = some rs) :
    rs.length ≤ (max cap 0).toNat := by
  induction attempts with
  | nil => simp [searx_attempts] at h
  | cons a rest ih =>
    rw [searx_attempts] at h
    cases hb : backend params a with
    | error e =>
      rw [hb] at h
      exact ih h
    | ok payload =>
      rw [hb] at h
      cases payload with
      | notList =>
        obtain rfl : ([] : List RawResult) = rs := by simpa using h
        simp
      | list l =>
        obtain rfl : l.take (max cap 0).toNat = rs := by simpa using h
        rw [List.length_take]
        exact min_le_left _ _

theorem searx_cap_eq (mr : Option Int) : searx_cap mr = mr.getD 5 := by
  cases mr <;> rfl

theorem fetch_searxng_length_le
    (backend : SearxParams → Nat → Except String ResultsField)
    (base query : String) (cats : Option (List String))
    (tr : Option String) (pg : Int) (lang : Option String)
    (mr : Option Int) :
    ((_fetch_searxng backend base query cats tr pg lang mr).length : Int) ≤
      max (mr.getD 5) 0 := by
  have hmax : (0 : Int) ≤ max (mr.getD 5) 0 := le_max_right _ _
  unfold _fetch_searxng
  by_cases hguard : base = "" ∨ query = ""
  · rw [if_pos hguard]
    simp only [List.length_nil, Int.natCast_zero]
    exact hmax
  · rw [if_neg hguard]
    cases hatt : searx_attempts backend
        (build_searx_params query cats tr pg lang) (searx_cap mr)
        searx_attempt_numbers with
    | none =>
      simp only [List.length_nil, Int.natCast_zero]
      exact hmax
    | some rs =>
      simp only
      have h1 := searx_attempts_length_le backend _ _ _ rs hatt
      calc (rs.length : Int) ≤ ((max (searx_cap mr) 0).toNat : Int) := by
            exact_mod_cast h1
        _ = max (searx_cap mr) 0 := Int.toNat_of_nonneg (le_max_right _ 0)
        _ = max (mr.getD 5) 0 := by rw [searx_cap_eq]

/-- **C5 (amended).** For every `web_search` invocation, the number of
returned results is at most `max(max_results, 0)` when the request
supplies an integer `max_results` (in particular at most `max_results`
whenever it is nonnegative), and at most the fixed default 5 when it is
unspecified.  The original claim's second half — that a fixed hard upper
bound is enforced regardless of how large a `max_results` the request
supplies — is false (see `claim_C5_counterexample`): the cap used on
src/tools.py lines 236-237 is the request's own `max_results`, unclamped. -/
theorem claim_C5 (backend : SearxParams → Nat → Except String ResultsField)
    (base : String) (args : SearchArgs) (q : String) (n : Nat)
    (rs : List FormattedResult)
    (h : run_web_search_tool backend base args = .ok q n rs) :
    (n : Int) ≤ max (args.max_results.getD 5) 0 := by
  unfold run_web_search_tool at h
  by_cases hq : pyStrTrim args.query = ""
  · rw [if_pos hq] at h; cases h
  · rw [if_neg hq] at h
    simp only [SearchOut.ok.injEq] at h
    obtain ⟨-, hn, -⟩ := h
    subst hn
    rw [_format_search_results, List.length_map]
    calc ((_deduplicate_results _).length : Int)
        ≤ ((_fetch_searxng backend base (pyStrTrim args.query) args.categories
            args.time_range (args.pageno.getD 1) args.language
            args.max_results).length : Int) := by
          exact_mod_cast dedup_length_le _
      _ ≤ max (args.max_results.getD 5) 0 :=
          fetch_searxng_length_le _ _ _ _ _ _ _ _

/-- Counterexample to C5 as stated: with `max_results = 11` and a backend
page of eleven distinct results, the tool returns 11 results — more than
the schema's declared maximum of 10, so no fixed hard upper bound is
enforced. -/
theorem claim_C5_counterexample :
    searchCountOf (run_web_search_tool backendEleven "http://searx" argsMax11) = 11 ∧
    max_results_schema_maximum <
      (searchCountOf (run_web_search_tool backendEleven "http://searx" argsMax11) : Int) := by
  constructor
  · decide
  · decide

/-- Witness for `claim_C5` at a concrete input (`max_results = 3`,
backend returning eleven results). -/
theorem claim_C5_witness :
    ((3 : Nat) : Int) ≤ max (argsMax3.max_results.getD 5) 0 :=
  claim_C5 backendEleven "http://searx" argsMax3 "test" 3
    (_format_search_results (_deduplicate_results (elevenRaw.take 3))) rfl

/-! ### Lemmas: deduplication keys and the duplicate-merge scenario -/

theorem assocFind_eq_none_iff (u : String) (seen : List (String × RawResult)) :
    assocFind u seen = none ↔ u ∉ seen.map Prod.fst := by
  induction seen with
  | nil => simp [assocFind]
  | cons p rest ih =>
    simp only [assocFind, List.map_cons, List.mem_cons]
    by_cases hk : p.1 = u
    · simp [hk]
    · rw [if_neg hk, ih]
      constructor
      · rintro h (h1 | h2)
        · exact hk h1.symm
        · exact h h2
      · intro h h2
        exact h (Or.inr h2)

theorem assocFind_pair_mem (u : String) (seen : List (String × RawResult))
    (e : RawResult) (h : assocFind u seen = some e) : (u, e) ∈ seen := by
  induction seen with
  | nil => simp [assocFind] at h
  | cons p rest ih =>
    obtain ⟨k, v⟩ := p
    rw [assocFind] at h
    by_cases hk : k = u
    · subst hk
      rw [if_pos rfl] at h
      obtain rfl : v = e := by simpa using h
      exact List.mem_cons_self _ _
    · rw [if_neg hk] at h
      exact List.mem_cons_of_mem _ (ih h)

theorem assocUpdate_map_fst (u : String) (v : RawResult)
    (seen : List (String × RawResult)) :
    (assocUpdate u v seen).map Prod.fst = seen.map Prod.fst := by
  induction seen with
  | nil => rfl
  | cons p rest ih =>
    by_cases hk : p.1 = u <;> simp [assocUpdate, hk] <;>
      simpa [assocUpdate] using ih

theorem assocUpdate_of_not_mem (u : String) (v : RawResult)
    (seen : List (String × RawResult)) (h : u ∉ seen.map Prod.fst) :
    assocUpdate u v seen = seen := by
  induction seen with
  | nil => rfl
  | cons p rest ih =>
    simp only [List.map_cons, List.mem_cons] at h
    push_neg at h
    simp only [assocUpdate, List.map_cons]
    rw [if_neg (fun hc => h.1 hc.symm)]
    have := ih h.2
    simpa [assocUpdate] using this

theorem assocUpdate_append (u : String) (v : RawResult)
    (s t : List (String × RawResult)) :
    assocUpdate u v (s ++ t) = assocUpdate u v s ++ assocUpdate u v t := by
  simp [assocUpdate]

theorem assocFind_append_of_none (u : String) (s t : List (String × RawResult))
    (hs : assocFind u s = none) : assocFind u (s ++ t) = assocFind u t := by
  induction s with
  | nil => rfl
  | cons p rest ih =>
    rw [assocFind] at hs
    by_cases hk : p.1 = u
    · rw [if_pos hk] at hs; cases hs
    · rw [if_neg hk] at hs
      rw [List.cons_append, assocFind, if_neg hk]
      exact ih hs

theorem toPairs_map_fst (rs : List RawResult) :
    (toPairs rs).map Prod.fst = rs.map cleanUrl := by
  simp [toPairs]

theorem toPairs_map_snd (rs : List RawResult) :
    (toPairs rs).map Prod.snd = rs := by
  induction rs with
  | nil => rfl
  | cons r rest ih =>
    simp only [toPairs, List.map_cons] at ih ⊢
    rw [ih]

theorem dedupGo_map_fst (rs : List RawResult) : ∀ seen,
    (dedupGo seen rs).map Prod.fst
      = seen.map Prod.fst ++ fsAux (seen.map Prod.fst) (rs.map cleanUrl) := by
  induction rs with
  | nil => intro seen; simp [dedupGo, fsAux]
  | cons r rest ih =>
    intro seen
    simp only [dedupGo, List.map_cons, fsAux]
    by_cases h0 : cleanUrl r = ""
    · rw [if_pos h0, if_pos (Or.inl h0)]
      exact ih seen
    · rw [if_neg h0]
      cases hfind : assocFind (cleanUrl r) seen with
      | some e =>
        have hmem : cleanUrl r ∈ seen.map Prod.fst := by
          by_contra hc
          rw [(assocFind_eq_none_iff _ _).mpr hc] at hfind
          cases hfind
        rw [if_pos (Or.inr hmem), ih (assocUpdate (cleanUrl r) (updateEngines e r) seen),
          assocUpdate_map_fst]
      | none =>
        have hmem : cleanUrl r ∉ seen.map Prod.fst :=
          (assocFind_eq_none_iff _ _).mp hfind
        rw [if_neg (by tauto), ih (seen ++ [(cleanUrl r, r)])]
        simp [List.append_assoc]

theorem dedupGo_clean_fst (rs : List RawResult) : ∀ seen,
    (∀ p ∈ seen, cleanUrl p.2 = p.1) →
    ∀ p ∈ dedupGo seen rs, cleanUrl p.2 = p.1 := by
  induction rs with
  | nil =>
    intro seen hinv p hp
    rw [dedupGo] at hp
    exact hinv p hp
  | cons r rest ih =>
    intro seen hinv p hp
    rw [dedupGo] at hp
    by_cases h0 : cleanUrl r = ""
    · rw [if_pos h0] at hp
      exact ih seen hinv p hp
    · rw [if_neg h0] at hp
      cases hfind : assocFind (cleanUrl r) seen with
      | some e =>
        rw [hfind] at hp
        refine ih _ ?_ p hp
        intro q hq
        simp only [assocUpdate, List.mem_map] at hq
        obtain ⟨q0, hq0, hq1⟩ := hq
        by_cases hq2 : q0.1 = cleanUrl r
        · rw [if_pos hq2] at hq1
          subst hq1
          have he : (cleanUrl r, e) ∈ seen := assocFind_pair_mem _ _ _ hfind
          have he2 : cleanUrl e = cleanUrl r := hinv _ he
          show cleanUrl (updateEngines e r) = q0.1
          rw [hq2]
          exact he2
        · rw [if_neg hq2] at hq1
          subst hq1
          exact hinv q0 hq0
      | none =>
        rw [hfind] at hp
        refine ih _ ?_ p hp
        intro q hq
        rcases List.mem_append.mp hq with h | h
        · exact hinv q h
        · simp only [List.mem_singleton] at h
          subst h
          rfl

theorem fsAux_eq (us : List String) : ∀ ks,
    fsAux ks us = (firstSeenNonEmpty us).filter (fun u => decide (u ∉ ks)) := by
  induction us with
  | nil => intro ks; simp [fsAux, firstSeenNonEmpty]
  | cons u us ih =>
    intro ks
    simp only [fsAux, firstSeenNonEmpty]
    by_cases h0 : u = ""
    · rw [if_pos (Or.inl h0), if_pos h0]
      exact ih ks
    · rw [if_neg h0]
      by_cases h1 : u ∈ ks
      · rw [if_pos (Or.inr h1), ih ks, List.filter_cons,
          if_neg (by simp [h1]), List.filter_filter]
        apply List.filter_congr
        intro a _
        by_cases ha : a ∈ ks
        · simp [ha]
        · have : a ≠ u := fun hc => ha (hc ▸ h1)
          simp [ha, this]
      · rw [if_neg (by tauto), ih (ks ++ [u]), List.filter_cons,
          if_pos (by simp [h1]), List.filter_filter]
        congr 1
        apply List.filter_congr
        intro a _
        by_cases hu : a = u
        · subst hu
          simp [List.mem_append]
        · by_cases hks : a ∈ ks <;> simp [List.mem_append, hu, hks]

theorem dedupGo_insert_run (rs1 : List RawResult) :
    ∀ (seen : List (String × RawResult)) (rs2 : List RawResult),
    (∀ r ∈ rs1, cleanUrl r ≠ "") →
    (∀ r ∈ rs1, assocFind (cleanUrl r) seen = none) →
    (rs1.map cleanUrl).Nodup →
    dedupGo seen (rs1 ++ rs2) = dedupGo (seen ++ toPairs rs1) rs2 := by
  induction rs1 with
  | nil =>
    intro seen rs2 _ _ _
    simp [toPairs]
  | cons r rest ih =>
    intro seen rs2 h1 h2 h3
    rw [List.map_cons, List.nodup_cons] at h3
    rw [List.cons_append, dedupGo, if_neg (h1 r (by simp)), h2 r (by simp)]
    show dedupGo (seen ++ [(cleanUrl r, r)]) (rest ++ rs2) = _
    have hstep : ∀ r2 ∈ rest, assocFind (cleanUrl r2) (seen ++ [(cleanUrl r, r)]) = none := by
      intro r2 hr2
      have hne : cleanUrl r2 ≠ cleanUrl r := by
        intro hc
        exact h3.1 (hc ▸ List.mem_map_of_mem cleanUrl hr2)
      rw [assocFind_append_of_none _ _ _ (h2 r2 (List.mem_cons_of_mem _ hr2)),
        assocFind, if_neg (fun hc => hne hc.symm)]
      rfl
    rw [ih (seen ++ [(cleanUrl r, r)]) rs2
        (fun r2 hr2 => h1 r2 (List.mem_cons_of_mem _ hr2)) hstep h3.2]
    simp [toPairs, List.append_assoc]

/-- **C4.** URL-deduplication of raw search results yields exactly one
entry per distinct non-empty URL — the first conjunct says the output's
cleaned URLs are exactly the first-seen-order distinct non-empty URLs of
the input — with entries of empty/missing URL dropped; and when two
entries share a URL (second conjunct, with all other URLs distinct), the
output keeps the first-seen entry at its position, its engines list
replaced by the first-seen-order union of both entries' engine lists. -/
theorem claim_C4 (results : List RawResult) :
    ((_deduplicate_results results).map cleanUrl
        = firstSeenNonEmpty (results.map cleanUrl)) ∧
    (∀ (pre mid post : List RawResult) (r1 r2 : RawResult) (u : String),
      results = pre ++ r1 :: (mid ++ r2 :: post) →
      cleanUrl r1 = u → cleanUrl r2 = u → u ≠ "" →
      ((pre ++ mid ++ post).map cleanUrl).Nodup →
      (∀ x ∈ pre ++ mid ++ post, cleanUrl x ≠ "" ∧ cleanUrl x ≠ u) →
      _deduplicate_results results
        = pre ++ ({ r1 with engines := some (nubFirst
            (r1.engines.getD [] ++ r2.engines.getD [])) } :: mid) ++ post) := by
  constructor
  · have hclean := dedupGo_clean_fst results [] (by intro p hp; cases hp)
    have hkeys := dedupGo_map_fst results []
    simp only [List.map_nil, List.nil_append] at hkeys
    calc (_deduplicate_results results).map cleanUrl
        = (dedupGo [] results).map (fun p => cleanUrl p.2) := by
          rw [_deduplicate_results, List.map_map]
          rfl
      _ = (dedupGo [] results).map Prod.fst := by
          apply List.map_congr_left
          exact hclean
      _ = fsAux [] (results.map cleanUrl) := hkeys
      _ = firstSeenNonEmpty (results.map cleanUrl) := by
          rw [fsAux_eq]
          apply List.filter_eq_self.mpr
          intro a _
          simp
  · rintro pre mid post r1 r2 u hres hr1 hr2 hu hnod hothers
    subst hres
    have hpre : ∀ x ∈ pre, cleanUrl x ≠ "" ∧ cleanUrl x ≠ u :=
      fun x hx => hothers x (by simp [hx])
    have hmid : ∀ x ∈ mid, cleanUrl x ≠ "" ∧ cleanUrl x ≠ u :=
      fun x hx => hothers x (by simp [hx])
    have hpost : ∀ x ∈ post, cleanUrl x ≠ "" ∧ cleanUrl x ≠ u :=
      fun x hx => hothers x (by simp [hx])
    rw [List.map_append, List.map_append, List.nodup_append, List.nodup_append] at hnod
    obtain ⟨⟨nodPre, nodMid, disjPM⟩, nodPost, disjPMP⟩ := hnod
    have hupre : u ∉ pre.map cleanUrl := by
      intro hm
      obtain ⟨x, hx, he⟩ := List.mem_map.mp hm
      exact (hpre x hx).2 he
    have humid : u ∉ mid.map cleanUrl := by
      intro hm
      obtain ⟨x, hx, he⟩ := List.mem_map.mp hm
      exact (hmid x hx).2 he
    have hfind_to : ∀ (w : String) (l : List RawResult),
        w ∉ l.map cleanUrl → assocFind w (toPairs l) = none := by
      intro w l hw
      refine (assocFind_eq_none_iff _ _).mpr ?_
      rw [toPairs_map_fst]
      exact hw
    rw [_deduplicate_results,
      dedupGo_insert_run pre [] (r1 :: (mid ++ r2 :: post))
        (fun x hx => (hpre x hx).1) (fun x hx => rfl) nodPre,
      List.nil_append, dedupGo, hr1, if_neg hu, hfind_to u pre hupre]
    show (dedupGo (toPairs pre ++ [(u, r1)]) (mid ++ r2 :: post)).map Prod.snd = _
    have hcm2 : ∀ x ∈ mid,
        assocFind (cleanUrl x) (toPairs pre ++ [(u, r1)]) = none := by
      intro x hx
      have hxpre : cleanUrl x ∉ pre.map cleanUrl := by
        intro hm
        exact disjPM hm (List.mem_map_of_mem cleanUrl hx)
      rw [assocFind_append_of_none _ _ _ (hfind_to _ pre hxpre),
        assocFind, if_neg (fun hc => (hmid x hx).2 hc.symm)]
      rfl
    rw [dedupGo_insert_run mid (toPairs pre ++ [(u, r1)]) (r2 :: post)
        (fun x hx => (hmid x hx).1) hcm2 nodMid,
      dedupGo, hr2, if_neg hu]
    have hfind2 : assocFind u ((toPairs pre ++ [(u, r1)]) ++ toPairs mid)
        = some r1 := by
      rw [List.append_assoc, assocFind_append_of_none _ _ _ (hfind_to u pre hupre),
        List.singleton_append, assocFind, if_pos rfl]
    rw [hfind2]
    show (dedupGo (assocUpdate u (updateEngines r1 r2)
        ((toPairs pre ++ [(u, r1)]) ++ toPairs mid)) post).map Prod.snd = _
    have hsingle : assocUpdate u (updateEngines r1 r2) [(u, r1)]
        = [(u, updateEngines r1 r2)] := by
      simp [assocUpdate]
    have hupd : assocUpdate u (updateEngines r1 r2)
        ((toPairs pre ++ [(u, r1)]) ++ toPairs mid)
        = (toPairs pre ++ [(u, updateEngines r1 r2)]) ++ toPairs mid := by
      rw [assocUpdate_append, assocUpdate_append,
        assocUpdate_of_not_mem _ _ _ (by rw [toPairs_map_fst]; exact hupre),
        hsingle,
        assocUpdate_of_not_mem _ _ _ (by rw [toPairs_map_fst]; exact humid)]
    rw [hupd]
    have hcp2 : ∀ x ∈ post, assocFind (cleanUrl x)
        ((toPairs pre ++ [(u, updateEngines r1 r2)]) ++ toPairs mid) = none := by
      intro x hx
      have hxpre : cleanUrl x ∉ pre.map cleanUrl := by
        intro hm
        exact disjPMP (List.mem_append_left _ hm)
          (List.mem_map_of_mem cleanUrl hx)
      have hxmid : cleanUrl x ∉ mid.map cleanUrl := by
        intro hm
        exact disjPMP (List.mem_append_right _ hm)
          (List.mem_map_of_mem cleanUrl hx)
      rw [List.append_assoc, assocFind_append_of_none _ _ _ (hfind_to _ pre hxpre),
        List.singleton_append, assocFind,
        if_neg (fun hc => (hpost x hx).2 hc.symm)]
      exact hfind_to _ mid hxmid
    have hrun3 := dedupGo_insert_run post
      ((toPairs pre ++ [(u, updateEngines r1 r2)]) ++ toPairs mid) []
      (fun x hx => (hpost x hx).1) hcp2 nodPost
    rw [List.append_nil] at hrun3
    rw [hrun3, dedupGo]
    simp only [List.map_append, toPairs_map_snd, List.map_cons, List.map_nil]
    show pre ++ [updateEngines r1 r2] ++ mid ++ post = _
    simp [updateEngines, List.append_assoc]

/-! ### Lemmas: truncation, clamping and the cache -/

theorem truncate_text_spec (t : List Char) (m : Int) (hm : 0 ≤ m) :
    (((truncate_text t m).1.length : Int) ≤ m) ∧
    ((truncate_text t m).2 = true ↔ m < (t.length : Int)) := by
  unfold truncate_text
  by_cases h : (t.length : Int) ≤ m
  · rw [if_pos h]
    exact ⟨h, by simp; omega⟩
  · rw [if_neg h]
    constructor
    · simp only [List.length_take]
      have h1 : min m.toNat t.length ≤ m.toNat := min_le_left _ _
      calc ((min m.toNat t.length : Nat) : Int) ≤ (m.toNat : Int) := by
            exact_mod_cast h1
        _ = m := Int.toNat_of_nonneg hm
    · simp only [true_iff]
      omega

theorem fetch_max_chars_pos (m : Option Int) : 0 ≤ fetch_max_chars m := by
  unfold fetch_max_chars
  have : (500 : Int) ≤ max 500 (min (m.getD DEFAULT_MAX_CHARS) DEFAULT_MAX_CHARS) :=
    le_max_left _ _
  omega

theorem render_max_chars_pos (m : Option Int) : 0 ≤ render_max_chars m := by
  unfold render_max_chars
  have : (500 : Int) ≤
      max 500 (min (m.getD DEFAULT_RENDER_MAX_CHARS) DEFAULT_RENDER_MAX_CHARS) :=
    le_max_left _ _
  omega

theorem cacheFind_mem (key : String) (c : Cache) (ts : Int) (e : PageResult)
    (h : cacheFind key c = some (ts, e)) : (key, ts, e) ∈ c := by
  induction c with
  | nil => simp [cacheFind] at h
  | cons p rest ih =>
    obtain ⟨k, ts0, e0⟩ := p
    rw [cacheFind] at h
    by_cases hk : k = key
    · subst hk
      rw [if_pos rfl] at h
      obtain ⟨rfl, rfl⟩ : ts0 = ts ∧ e0 = e := by
        simpa [Prod.ext_iff] using h
      exact List.mem_cons_self _ _
    · rw [if_neg hk] at h
      exact List.mem_cons_of_mem _ (ih h)

theorem get_cached_some (now : Int) (key : String) (c c' : Cache)
    (e : PageResult) (h : _get_cached now key c = (some e, c')) :
    (∃ ts, cacheFind key c = some (ts, e) ∧ now - ts ≤ URL_CACHE_TTL) ∧ c' = c := by
  unfold _get_cached at h
  cases hf : cacheFind key c with
  | none =>
    rw [hf] at h
    simp at h
  | some p =>
    obtain ⟨ts, e0⟩ := p
    rw [hf] at h
    have h2 : (if now - ts > URL_CACHE_TTL then
        ((none : Option PageResult), cacheDelete key c) else (some e0, c))
        = (some e, c') := h
    by_cases hexp : now - ts > URL_CACHE_TTL
    · rw [if_pos hexp] at h2
      simp at h2
    · rw [if_neg hexp] at h2
      obtain ⟨he, hc⟩ : (some e0 = some e) ∧ c = c' := by
        simpa [Prod.ext_iff] using h2
      obtain rfl : e0 = e := by simpa using he
      exact ⟨⟨ts, rfl, by omega⟩, hc.symm⟩

theorem get_set_within (t1 t2 : Int) (key : String) (e : PageResult) (c : Cache)
    (h : t2 - t1 ≤ URL_CACHE_TTL) :
    _get_cached t2 key (_set_cached t1 key e c)
      = (some e, _set_cached t1 key e c) := by
  have hc : cacheFind key (_set_cached t1 key e c) = some (t1, e) := by
    rw [_set_cached, cacheFind, if_pos rfl]
  rw [_get_cached, hc]
  show (if t2 - t1 > URL_CACHE_TTL then
      ((none : Option PageResult), cacheDelete key (_set_cached t1 key e c))
      else (some e, _set_cached t1 key e c)) = _
  rw [if_neg (by omega)]

/-- Characterization of a successful fetch: the result dict never carries
`"_full_text"`, and its text fields are the truncation data of one full
text (the cached full text on a hit, the freshly extracted text on a
miss). -/
theorem fetch_ok_spec (net : String → Except String HttpGetOk)
    (extract : List Char → String → List Char × List Char)
    (fmtJson : String → List Char → Option (List Char))
    (exLinks : List Char → String → List String)
    (now : Int) (cache : Cache) (args : UrlToolArgs)
    (hwf : CacheWF cache) (r : PageResult) (c' : Cache)
    (h : run_web_fetch_tool net extract fmtJson exLinks now cache args
      = (.ok r, c')) :
    r.full_text = none ∧
    ∃ full : List Char,
      r.text = (truncate_text full (fetch_max_chars args.max_chars)).1 ∧
      r.text_truncated = (truncate_text full (fetch_max_chars args.max_chars)).2 ∧
      r.text_length = full.length := by
  simp only [run_web_fetch_tool] at h
  cases hval : _validate_url (pyStrTrim (args.url.getD "")) with
  | some e =>
    rw [hval] at h
    simp at h
  | none =>
    rw [hval] at h
    rcases hget : _get_cached now ("fetch:" ++ pyStrTrim (args.url.getD "")) cache
      with ⟨o, cache1⟩
    rw [hget] at h
    cases o with
    | some cached =>
      have h2 : ((FetchOutcome.ok (cachedResult cached
          (fetch_max_chars args.max_chars))), cache1)
          = (FetchOutcome.ok r, c') := h
      have hr : cachedResult cached (fetch_max_chars args.max_chars) = r := by
        have h3 := congrArg Prod.fst h2
        simpa using h3
      subst hr
      obtain ⟨⟨ts, hfind, -⟩, -⟩ := get_cached_some _ _ _ _ _ hget
      obtain ⟨f, hf1, hf2⟩ := hwf _ _ _ (cacheFind_mem _ _ _ _ hfind)
      refine ⟨rfl, f, ?_, ?_, ?_⟩ <;>
        simp [cachedResult, hf1, hf2]
    | none =>
      cases hnet : net (pyStrTrim (args.url.getD "")) with
      | error e =>
        rw [hnet] at h
        simp at h
      | ok raw =>
        rw [hnet] at h
        have h2 : (FetchOutcome.ok (fetch_result (pyStrTrim (args.url.getD ""))
            raw (args.include_links.getD true) (fetch_max_chars args.max_chars)
            (fetch_text_links extract fmtJson exLinks
              (args.include_links.getD true) raw)),
            _set_cached now ("fetch:" ++ pyStrTrim (args.url.getD ""))
              { fetch_result (pyStrTrim (args.url.getD ""))
                  raw (args.include_links.getD true)
                  (fetch_max_chars args.max_chars)
                  (fetch_text_links extract fmtJson exLinks
                    (args.include_links.getD true) raw) with
                full_text := some (fetch_text_links extract fmtJson exLinks
                  (args.include_links.getD true) raw).2.1 } cache1)
            = (FetchOutcome.ok r, c') := h
        have hr : fetch_result (pyStrTrim (args.url.getD ""))
            raw (args.include_links.getD true) (fetch_max_chars args.max_chars)
            (fetch_text_links extract fmtJson exLinks
              (args.include_links.getD true) raw) = r := by
          have h3 := congrArg Prod.fst h2
          simpa using h3
        subst hr
        exact ⟨rfl, _, rfl, rfl, rfl⟩

/-- Characterization of a successful render, as `fetch_ok_spec`. -/
theorem render_ok_spec (browser : String → ℚ → Except String RenderOk)
    (pwAvailable : Bool)
    (extract : List Char → String → List Char × List Char)
    (exLinks : List Char → String → List String)
    (now : Int) (cache : Cache) (args : UrlToolArgs)
    (hwf : CacheWF cache) (r : PageResult) (c' : Cache)
    (h : run_web_render_tool browser pwAvailable extract exLinks now cache args
      = (.ok r, c')) :
    r.full_text = none ∧
    ∃ full : List Char,
      r.text = (truncate_text full (render_max_chars args.max_chars)).1 ∧
      r.text_truncated = (truncate_text full (render_max_chars args.max_chars)).2 ∧
      r.text_length = full.length := by
  simp only [run_web_render_tool] at h
  cases hval : _validate_url (pyStrTrim (args.url.getD "")) with
  | some e =>
    rw [hval] at h
    simp at h
  | none =>
    rw [hval] at h
    rcases hget : _get_cached now ("render:" ++ pyStrTrim (args.url.getD "")) cache
      with ⟨o, cache1⟩
    rw [hget] at h
    cases o with
    | some cached =>
      have h2 : ((FetchOutcome.ok (cachedResult cached
          (render_max_chars args.max_chars))), cache1)
          = (FetchOutcome.ok r, c') := h
      have hr : cachedResult cached (render_max_chars args.max_chars) = r := by
        have h3 := congrArg Prod.fst h2
        simpa using h3
      subst hr
      obtain ⟨⟨ts, hfind, -⟩, -⟩ := get_cached_some _ _ _ _ _ hget
      obtain ⟨f, hf1, hf2⟩ := hwf _ _ _ (cacheFind_mem _ _ _ _ hfind)
      refine ⟨rfl, f, ?_, ?_, ?_⟩ <;>
        simp [cachedResult, hf1, hf2]
    | none =>
      cases hpw : pwAvailable with
      | false =>
        rw [hpw] at h
        simp at h
      | true =>
        rw [hpw] at h
        cases hbrowser : browser (pyStrTrim (args.url.getD ""))
            (render_wait_seconds args.wait_seconds) with
        | error e =>
          rw [hbrowser] at h
          simp at h
        | ok ro =>
          rw [hbrowser] at h
          have h2 : (FetchOutcome.ok (render_result (pyStrTrim (args.url.getD ""))
              ro (args.include_links.getD true) (render_max_chars args.max_chars)
              (extract ro.html ro.final_url)
              (if args.include_links.getD true then
                exLinks ro.html ro.final_url else [])),
              _set_cached now ("render:" ++ pyStrTrim (args.url.getD ""))
                { render_result (pyStrTrim (args.url.getD ""))
                    ro (args.include_links.getD true)
                    (render_max_chars args.max_chars)
                    (extract ro.html ro.final_url)
                    (if args.include_links.getD true then
                      exLinks ro.html ro.final_url else []) with
                  full_text := some (extract ro.html ro.final_url).2 } cache1)
              = (FetchOutcome.ok r, c') := h
          have hr : render_result (pyStrTrim (args.url.getD ""))
              ro (args.include_links.getD true) (render_max_chars args.max_chars)
              (extract ro.html ro.final_url)
              (if args.include_links.getD true then
                exLinks ro.html ro.final_url else []) = r := by
            have h3 := congrArg Prod.fst h2
            simpa using h3
          subst hr
          exact ⟨rfl, _, rfl, rfl, rfl⟩

/-- Witness for `claim_C4`: two concrete results sharing a URL, with
engine lists `["google"]` and `["bing", "google"]`, deduplicate to the
single first-seen entry carrying the merged engine list
`["google", "bing"]`. -/
theorem claim_C4_witness :
    _deduplicate_results [rawA, rawB]
      = [{ rawA with engines := some ["google", "bing"] }] := by
  have h := (claim_C4 [rawA, rawB]).2 [] [] [] rawA rawB "https://e.com"
    rfl (by decide) (by decide) (by decide) (by simp) (by simp)
  simpa using h

/-- **C2.** For every fetch or render request that returns a result dict
(both on a cache hit over a well-formed cache and on a fresh network/
render fetch), the returned text's length never exceeds the clamped
max-character bound, `text_truncated` is true iff the full extracted
text's length exceeds that bound, and `text_length` reports the full
text's true length. -/
theorem claim_C2 (net : String → Except String HttpGetOk)
    (extract : List Char → String → List Char × List Char)
    (fmtJson : String → List Char → Option (List Char))
    (exLinks : List Char → String → List String)
    (browser : String → ℚ → Except String RenderOk) (pwA : Bool)
    (now : Int) (cache : Cache) (fargs rargs : UrlToolArgs)
    (hwf : CacheWF cache) :
    (∀ r c', run_web_fetch_tool net extract fmtJson exLinks now cache fargs
        = (.ok r, c') →
      ∃ full : List Char,
        r.text_length = full.length ∧
        r.text = (truncate_text full (fetch_max_chars fargs.max_chars)).1 ∧
        ((r.text.length : Int) ≤ fetch_max_chars fargs.max_chars) ∧
        (r.text_truncated = true ↔
          fetch_max_chars fargs.max_chars < (full.length : Int))) ∧
    (∀ r c', run_web_render_tool browser pwA extract exLinks now cache rargs
        = (.ok r, c') →
      ∃ full : List Char,
        r.text_length = full.length ∧
        r.text = (truncate_text full (render_max_chars rargs.max_chars)).1 ∧
        ((r.text.length : Int) ≤ render_max_chars rargs.max_chars) ∧
        (r.text_truncated = true ↔
          render_max_chars rargs.max_chars < (full.length : Int))) := by
  constructor
  · intro r c' h
    obtain ⟨-, full, ht, htr, hlen⟩ :=
      fetch_ok_spec net extract fmtJson exLinks now cache fargs hwf r c' h
    obtain ⟨hb, hiff⟩ :=
      truncate_text_spec full (fetch_max_chars fargs.max_chars)
        (fetch_max_chars_pos _)
    refine ⟨full, hlen, ht, ?_, ?_⟩
    · rw [ht]; exact hb
    · rw [htr]; exact hiff
  · intro r c' h
    obtain ⟨-, full, ht, htr, hlen⟩ :=
      render_ok_spec browser pwA extract exLinks now cache rargs hwf r c' h
    obtain ⟨hb, hiff⟩ :=
      truncate_text_spec full (render_max_chars rargs.max_chars)
        (render_max_chars_pos _)
    refine ⟨full, hlen, ht, ?_, ?_⟩
    · rw [ht]; exact hb
    · rw [htr]; exact hiff

/-- Witness for `claim_C2` at concrete oracles: a plain-text fetch and a
render against an empty cache. -/
theorem claim_C2_witness :
    (∃ full : List Char,
      fetchDemoResult.text_length = full.length ∧
      fetchDemoResult.text = (truncate_text full (fetch_max_chars argsUrlX.max_chars)).1 ∧
      ((fetchDemoResult.text.length : Int) ≤ fetch_max_chars argsUrlX.max_chars) ∧
      (fetchDemoResult.text_truncated = true ↔
        fetch_max_chars argsUrlX.max_chars < (full.length : Int))) ∧
    (∃ full : List Char,
      renderDemoResult.text_length = full.length ∧
      renderDemoResult.text = (truncate_text full (render_max_chars argsUrlX.max_chars)).1 ∧
      ((renderDemoResult.text.length : Int) ≤ render_max_chars argsUrlX.max_chars) ∧
      (renderDemoResult.text_truncated = true ↔
        render_max_chars argsUrlX.max_chars < (full.length : Int))) := by
  have hwf : CacheWF [] := by intro k ts e hmem; cases hmem
  have h := claim_C2 netHello extractNil fmtJsonNone exLinksNil browserHello true
    0 [] argsUrlX argsUrlX hwf
  exact ⟨h.1 fetchDemoResult fetchDemoCache rfl,
    h.2 renderDemoResult renderDemoCache rfl⟩

/-- Unconditional version of the `"_full_text"`-omission fact for fetch
(no cache well-formedness needed: both return paths strip the key). -/
theorem fetch_full_text_none (net : String → Except String HttpGetOk)
    (extract : List Char → String → List Char × List Char)
    (fmtJson : String → List Char → Option (List Char))
    (exLinks : List Char → String → List String)
    (now : Int) (cache : Cache) (args : UrlToolArgs)
    (r : PageResult) (c' : Cache)
    (h : run_web_fetch_tool net extract fmtJson exLinks now cache args
      = (.ok r, c')) :
    r.full_text = none := by
  simp only [run_web_fetch_tool] at h
  cases hval : _validate_url (pyStrTrim (args.url.getD "")) with
  | some e =>
    rw [hval] at h
    simp at h
  | none =>
    rw [hval] at h
    rcases hget : _get_cached now ("fetch:" ++ pyStrTrim (args.url.getD "")) cache
      with ⟨o, cache1⟩
    rw [hget] at h
    cases o with
    | some cached =>
      have h2 : ((FetchOutcome.ok (cachedResult cached
          (fetch_max_chars args.max_chars))), cache1)
          = (FetchOutcome.ok r, c') := h
      have hr : cachedResult cached (fetch_max_chars args.max_chars) = r := by
        have h3 := congrArg Prod.fst h2
        simpa using h3
      subst hr
      rfl
    | none =>
      cases hnet : net (pyStrTrim (args.url.getD "")) with
      | error e =>
        rw [hnet] at h
        simp at h
      | ok raw =>
        rw [hnet] at h
        have hr : fetch_result (pyStrTrim (args.url.getD ""))
            raw (args.include_links.getD true) (fetch_max_chars args.max_chars)
            (fetch_text_links extract fmtJson exLinks
              (args.include_links.getD true) raw) = r := by
          have h3 := congrArg Prod.fst h
          simpa using h3
        subst hr
        rfl

/-- Unconditional `"_full_text"`-omission for render. -/
theorem render_full_text_none (browser : String → ℚ → Except String RenderOk)
    (pwAvailable : Bool)
    (extract : List Char → String → List Char × List Char)
    (exLinks : List Char → String → List String)
    (now : Int) (cache : Cache) (args : UrlToolArgs)
    (r : PageResult) (c' : Cache)
    (h : run_web_render_tool browser pwAvailable extract exLinks now cache args
      = (.ok r, c')) :
    r.full_text = none := by
  simp only [run_web_render_tool] at h
  cases hval : _validate_url (pyStrTrim (args.url.getD "")) with
  | some e =>
    rw [hval] at h
    simp at h
  | none =>
    rw [hval] at h
    rcases hget : _get_cached now ("render:" ++ pyStrTrim (args.url.getD "")) cache
      with ⟨o, cache1⟩
    rw [hget] at h
    cases o with
    | some cached =>
      have h2 : ((FetchOutcome.ok (cachedResult cached
          (render_max_chars args.max_chars))), cache1)
          = (FetchOutcome.ok r, c') := h
      have hr : cachedResult cached (render_max_chars args.max_chars) = r := by
        have h3 := congrArg Prod.fst h2
        simpa using h3
      subst hr
      rfl
    | none =>
      cases hpw : pwAvailable with
      | false =>
        rw [hpw] at h
        simp at h
      | true =>
        rw [hpw] at h
        cases hbrowser : browser (pyStrTrim (args.url.getD ""))
            (render_wait_seconds args.wait_seconds) with
        | error e =>
          rw [hbrowser] at h
          simp at h
        | ok ro =>
          rw [hbrowser] at h
          have hr : render_result (pyStrTrim (args.url.getD ""))
              ro (args.include_links.getD true) (render_max_chars args.max_chars)
              (extract ro.html ro.final_url)
              (if args.include_links.getD true then
                exLinks ro.html ro.final_url else []) = r := by
            have h3 := congrArg Prod.fst h
            simpa using h3
          subst hr
          rfl

/-- **C10.** Every result dict the fetch and render tools return to the
caller — on the cache-hit path (which pops the key) and on the cache-miss
path (which adds it only to the cached copy) — omits the internal
`"_full_text"` key; the full untruncated text lives only in the cache
entry. -/
theorem claim_C10 (net : String → Except String HttpGetOk)
    (extract : List Char → String → List Char × List Char)
    (fmtJson : String → List Char → Option (List Char))
    (exLinks : List Char → String → List String)
    (browser : String → ℚ → Except String RenderOk) (pwA : Bool)
    (now : Int) (cache : Cache) (fargs rargs : UrlToolArgs) :
    (∀ r c', run_web_fetch_tool net extract fmtJson exLinks now cache fargs
        = (.ok r, c') → r.full_text = none) ∧
    (∀ r c', run_web_render_tool browser pwA extract exLinks now cache rargs
        = (.ok r, c') → r.full_text = none) :=
  ⟨fun r c' h => fetch_full_text_none net extract fmtJson exLinks now cache fargs r c' h,
   fun r c' h => render_full_text_none browser pwA extract exLinks now cache rargs r c' h⟩

/-- Witness for `claim_C10` at the demo oracles. -/
theorem claim_C10_witness :
    fetchDemoResult.full_text = none ∧ renderDemoResult.full_text = none := by
  have h := claim_C10 netHello extractNil fmtJsonNone exLinksNil browserHello true
    0 [] argsUrlX argsUrlX
  exact ⟨h.1 fetchDemoResult fetchDemoCache rfl,
    h.2 renderDemoResult renderDemoCache rfl⟩

theorem get_cached_of_find_none (now : Int) (key : String) (c : Cache)
    (h : cacheFind key c = none) : _get_cached now key c = (none, c) := by
  rw [_get_cached, h]

/-- **C3.** For a pair of fetch (resp. render) calls on the same URL
where the first call misses the cache and succeeds, and the second call
comes within the cache TTL with a possibly different `max_chars`: the
second call returns the cache-hit re-slicing of the stored entry — its
text is the truncation of the cached *full* untruncated text `full` to
the *second* call's clamped limit, and its truncation flag is recomputed
against that limit — while the first call's stored excerpt was the
truncation to the *first* call's limit. -/
theorem claim_C3 (net : String → Except String HttpGetOk)
    (extract : List Char → String → List Char × List Char)
    (fmtJson : String → List Char → Option (List Char))
    (exLinks : List Char → String → List String)
    (browser : String → ℚ → Except String RenderOk) (pwA : Bool)
    (t1 t2 : Int) (c0 : Cache) :
    (∀ (args1 args2 : UrlToolArgs) (p1 : PageResult) (c1 : Cache),
      pyStrTrim (args2.url.getD "") = pyStrTrim (args1.url.getD "") →
      cacheFind ("fetch:" ++ pyStrTrim (args1.url.getD "")) c0 = none →
      t2 - t1 ≤ URL_CACHE_TTL →
      run_web_fetch_tool net extract fmtJson exLinks t1 c0 args1 = (.ok p1, c1) →
      ∃ (full : List Char) (e : PageResult),
        cacheFind ("fetch:" ++ pyStrTrim (args1.url.getD "")) c1 = some (t1, e) ∧
        e.full_text = some full ∧
        p1.text = (truncate_text full (fetch_max_chars args1.max_chars)).1 ∧
        (run_web_fetch_tool net extract fmtJson exLinks t2 c1 args2).1
          = .ok (cachedResult e (fetch_max_chars args2.max_chars)) ∧
        (cachedResult e (fetch_max_chars args2.max_chars)).text
          = (truncate_text full (fetch_max_chars args2.max_chars)).1 ∧
        (cachedResult e (fetch_max_chars args2.max_chars)).text_truncated
          = (truncate_text full (fetch_max_chars args2.max_chars)).2) ∧
    (∀ (args1 args2 : UrlToolArgs) (p1 : PageResult) (c1 : Cache),
      pyStrTrim (args2.url.getD "") = pyStrTrim (args1.url.getD "") →
      cacheFind ("render:" ++ pyStrTrim (args1.url.getD "")) c0 = none →
      t2 - t1 ≤ URL_CACHE_TTL →
      run_web_render_tool browser pwA extract exLinks t1 c0 args1 = (.ok p1, c1) →
      ∃ (full : List Char) (e : PageResult),
        cacheFind ("render:" ++ pyStrTrim (args1.url.getD "")) c1 = some (t1, e) ∧
        e.full_text = some full ∧
        p1.text = (truncate_text full (render_max_chars args1.max_chars)).1 ∧
        (run_web_render_tool browser pwA extract exLinks t2 c1 args2).1
          = .ok (cachedResult e (render_max_chars args2.max_chars)) ∧
        (cachedResult e (render_max_chars args2.max_chars)).text
          = (truncate_text full (render_max_chars args2.max_chars)).1 ∧
        (cachedResult e (render_max_chars args2.max_chars)).text_truncated
          = (truncate_text full (render_max_chars args2.max_chars)).2) := by
  constructor
  · intro args1 args2 p1 c1 hu hmiss htime h1
    simp only [run_web_fetch_tool] at h1
    cases hval : _validate_url (pyStrTrim (args1.url.getD "")) with
    | some e =>
      rw [hval] at h1
      simp at h1
    | none =>
      rw [hval] at h1
      rw [get_cached_of_find_none t1 _ _ hmiss] at h1
      cases hnet : net (pyStrTrim (args1.url.getD "")) with
      | error e =>
        rw [hnet] at h1
        simp at h1
      | ok raw =>
        rw [hnet] at h1
        have hp : fetch_result (pyStrTrim (args1.url.getD "")) raw
            (args1.include_links.getD true) (fetch_max_chars args1.max_chars)
            (fetch_text_links extract fmtJson exLinks
              (args1.include_links.getD true) raw) = p1 := by
          have h3 := congrArg Prod.fst h1
          simpa using h3
        have hcc : _set_cached t1 ("fetch:" ++ pyStrTrim (args1.url.getD ""))
            { fetch_result (pyStrTrim (args1.url.getD "")) raw
                (args1.include_links.getD true) (fetch_max_chars args1.max_chars)
                (fetch_text_links extract fmtJson exLinks
                  (args1.include_links.getD true) raw) with
              full_text := some (fetch_text_links extract fmtJson exLinks
                (args1.include_links.getD true) raw).2.1 } c0 = c1 := by
          have h3 := congrArg Prod.snd h1
          simpa using h3
        subst hp
        subst hcc
        refine ⟨(fetch_text_links extract fmtJson exLinks
            (args1.include_links.getD true) raw).2.1,
          { fetch_result (pyStrTrim (args1.url.getD "")) raw
              (args1.include_links.getD true) (fetch_max_chars args1.max_chars)
              (fetch_text_links extract fmtJson exLinks
                (args1.include_links.getD true) raw) with
            full_text := some (fetch_text_links extract fmtJson exLinks
              (args1.include_links.getD true) raw).2.1 },
          ?_, rfl, rfl, ?_, rfl, rfl⟩
        · rw [_set_cached, cacheFind, if_pos rfl]
        · simp only [run_web_fetch_tool]
          rw [hu, hval, get_set_within t1 t2 _ _ _ htime]
  · intro args1 args2 p1 c1 hu hmiss htime h1
    simp only [run_web_render_tool] at h1
    cases hval : _validate_url (pyStrTrim (args1.url.getD "")) with
    | some e =>
      rw [hval] at h1
      simp at h1
    | none =>
      rw [hval] at h1
      rw [get_cached_of_find_none t1 _ _ hmiss] at h1
      cases hpw : pwA with
      | false =>
        rw [hpw] at h1
        simp at h1
      | true =>
        rw [hpw] at h1
        cases hbrowser : browser (pyStrTrim (args1.url.getD ""))
            (render_wait_seconds args1.wait_seconds) with
        | error e =>
          rw [hbrowser] at h1
          simp at h1
        | ok ro =>
          rw [hbrowser] at h1
          have hp : render_result (pyStrTrim (args1.url.getD "")) ro
              (args1.include_links.getD true) (render_max_chars args1.max_chars)
              (extract ro.html ro.final_url)
              (if args1.include_links.getD true then
                exLinks ro.html ro.final_url else []) = p1 := by
            have h3 := congrArg Prod.fst h1
            simpa using h3
          have hcc : _set_cached t1 ("render:" ++ pyStrTrim (args1.url.getD ""))
              { render_result (pyStrTrim (args1.url.getD "")) ro
                  (args1.include_links.getD true) (render_max_chars args1.max_chars)
                  (extract ro.html ro.final_url)
                  (if args1.include_links.getD true then
                    exLinks ro.html ro.final_url else []) with
                full_text := some (extract ro.html ro.final_url).2 } c0 = c1 := by
            have h3 := congrArg Prod.snd h1
            simpa using h3
          subst hp
          subst hcc
          refine ⟨(extract ro.html ro.final_url).2,
            { render_result (pyStrTrim (args1.url.getD "")) ro
                (args1.include_links.getD true) (render_max_chars args1.max_chars)
                (extract ro.html ro.final_url)
                (if args1.include_links.getD true then
                  exLinks ro.html ro.final_url else []) with
              full_text := some (extract ro.html ro.final_url).2 },
            ?_, rfl, rfl, ?_, rfl, rfl⟩
          · rw [_set_cached, cacheFind, if_pos rfl]
          · simp only [run_web_render_tool]
            rw [hu, hval, get_set_within t1 t2 _ _ _ htime]

/-- Witness for `claim_C3`: a fetch at time 0 with `max_chars = 1000`
followed by a fetch of the same URL at time 100 with `max_chars = 600`,
and the render analogue. -/
theorem claim_C3_witness :
    (∃ (full : List Char) (e : PageResult),
      cacheFind ("fetch:" ++ pyStrTrim (argsUrlX.url.getD "")) fetchDemoCache
        = some (0, e) ∧
      e.full_text = some full ∧
      fetchDemoResult.text = (truncate_text full (fetch_max_chars argsUrlX.max_chars)).1 ∧
      (run_web_fetch_tool netHello extractNil fmtJsonNone exLinksNil 100
          fetchDemoCache argsUrlX2).1
        = .ok (cachedResult e (fetch_max_chars argsUrlX2.max_chars)) ∧
      (cachedResult e (fetch_max_chars argsUrlX2.max_chars)).text
        = (truncate_text full (fetch_max_chars argsUrlX2.max_chars)).1 ∧
      (cachedResult e (fetch_max_chars argsUrlX2.max_chars)).text_truncated
        = (truncate_text full (fetch_max_chars argsUrlX2.max_chars)).2) ∧
    (∃ (full : List Char) (e : PageResult),
      cacheFind ("render:" ++ pyStrTrim (argsUrlX.url.getD "")) renderDemoCache
        = some (0, e) ∧
      e.full_text = some full ∧
      renderDemoResult.text = (truncate_text full (render_max_chars argsUrlX.max_chars)).1 ∧
      (run_web_render_tool browserHello true extractNil exLinksNil 100
          renderDemoCache argsUrlX2).1
        = .ok (cachedResult e (render_max_chars argsUrlX2.max_chars)) ∧
      (cachedResult e (render_max_chars argsUrlX2.max_chars)).text
        = (truncate_text full (render_max_chars argsUrlX2.max_chars)).1 ∧
      (cachedResult e (render_max_chars argsUrlX2.max_chars)).text_truncated
        = (truncate_text full (render_max_chars argsUrlX2.max_chars)).2) := by
  have h := claim_C3 netHello extractNil fmtJsonNone exLinksNil browserHello true
    0 100 []
  exact ⟨h.1 argsUrlX argsUrlX2 fetchDemoResult fetchDemoCache rfl rfl (by decide) rfl,
    h.2 argsUrlX argsUrlX2 renderDemoResult renderDemoCache rfl rfl (by decide) rfl⟩

/-- Invariants of the agent loop, by induction on the remaining fuel:
at most fuel+1 completion requests; the answer is never empty; exactly
fuel+1 requests when every tool-enabled response requests a tool; and
when every response trims to empty (and no earlier candidate exists) the
answer is one of the two fixed apology strings. -/
theorem ai_answer_loop_spec {α : Type} (model : Bool → List Msg → AssistantMsg)
    (parse : String → Option α) (empty_args : α) (dumps : ToolRet → String)
    (rs rf rr : α → Except String ToolRet) :
    ∀ (n : Nat) (messages : List Msg) (last : String),
    (ai_answer_loop model parse empty_args dumps rs rf rr n messages last).2 ≤ n + 1 ∧
    (ai_answer_loop model parse empty_args dumps rs rf rr n messages last).1 ≠ "" ∧
    ((∀ msgs, (model true msgs).tool_calls ≠ []) →
      (ai_answer_loop model parse empty_args dumps rs rf rr n messages last).2 = n + 1) ∧
    ((∀ (b : Bool) msgs, pyStrTrim (model b msgs).content = "") → last = "" →
      ((ai_answer_loop model parse empty_args dumps rs rf rr n messages last).1
          = APOLOGY_NO_RESPONSE ∨
        (ai_answer_loop model parse empty_args dumps rs rf rr n messages last).1
          = APOLOGY_NO_RELIABLE)) := by
  intro n
  induction n with
  | zero =>
    intro messages last
    simp only [ai_answer_loop]
    refine ⟨by simp, ?_, fun _ => by simp, ?_⟩
    · show (if _ then _ else if _ then _ else _) ≠ ""
      split_ifs with h1 h2
      · exact h1
      · exact h2
      · decide
    · intro hempty hlast
      show ((if _ then _ else if _ then _ else _) = _ ∨
        (if _ then _ else if _ then _ else _) = _)
      rw [if_neg (by simpa using hempty false _), if_neg (by simpa using hlast)]
      exact Or.inr rfl
  | succ n ih =>
    intro messages last
    simp only [ai_answer_loop]
    by_cases htc : (model true messages).tool_calls ≠ []
    · rw [if_pos htc]
      obtain ⟨ih1, ih2, ih3, ih4⟩ := ih
        (messages ++ [.assistant (model true messages)] ++
          tool_messages parse empty_args dumps rs rf rr
            (model true messages).tool_calls)
        (pyStrTrim (model true messages).content)
      refine ⟨?_, ih2, ?_, ?_⟩
      · show _ + 1 ≤ n + 1 + 1
        omega
      · intro hall
        show _ + 1 = n + 1 + 1
        rw [ih3 hall]
      · intro hempty _
        exact ih4 hempty (hempty true messages)
    · rw [if_neg htc]
      refine ⟨by omega, ?_, ?_, ?_⟩
      · show (if _ then _ else _) ≠ ""
        split_ifs with h1
        · decide
        · exact h1
      · intro hall
        exact absurd (hall messages) htc
      · intro hempty _
        show ((if _ then _ else _) = _ ∨ (if _ then _ else _) = _)
        rw [if_pos (hempty true messages)]
        exact Or.inl rfl

/-- **C1.** Every run of the agent loop issues at most
`MAX_TOOL_STEPS + 1` completion requests — exactly `MAX_TOOL_STEPS + 1`
when the model requests a tool call on every step — and always returns a
non-empty string; when every candidate answer is empty after trimming,
the returned string is one of the two fixed apology strings. -/
theorem claim_C1 {α : Type} (model : Bool → List Msg → AssistantMsg)
    (parse : String → Option α) (empty_args : α) (dumps : ToolRet → String)
    (rs rf rr : α → Except String ToolRet) (sys usr : String) :
    (ai_answer model parse empty_args dumps rs rf rr sys usr).2
      ≤ MAX_TOOL_STEPS + 1 ∧
    (ai_answer model parse empty_args dumps rs rf rr sys usr).1 ≠ "" ∧
    ((∀ msgs, (model true msgs).tool_calls ≠ []) →
      (ai_answer model parse empty_args dumps rs rf rr sys usr).2
        = MAX_TOOL_STEPS + 1) ∧
    ((∀ (b : Bool) msgs, pyStrTrim (model b msgs).content = "") →
      ((ai_answer model parse empty_args dumps rs rf rr sys usr).1
          = APOLOGY_NO_RESPONSE ∨
        (ai_answer model parse empty_args dumps rs rf rr sys usr).1
          = APOLOGY_NO_RELIABLE)) := by
  obtain ⟨h1, h2, h3, h4⟩ := ai_answer_loop_spec model parse empty_args dumps
    rs rf rr MAX_TOOL_STEPS [.system sys, .user usr] ""
  exact ⟨h1, h2, h3, fun he => h4 he rfl⟩

/-- Witness for `claim_C1`: a model that requests `web_search` on all 16
steps issues exactly 17 completion requests, and the answer is
non-empty. -/
theorem claim_C1_witness :
    (ai_answer modelAlwaysTool parseUnit () dumpsConst toolOk toolOk toolOk
      "sys" "usr").2 = MAX_TOOL_STEPS + 1 ∧
    (ai_answer modelAlwaysTool parseUnit () dumpsConst toolOk toolOk toolOk
      "sys" "usr").1 ≠ "" := by
  have h := claim_C1 modelAlwaysTool parseUnit () dumpsConst toolOk toolOk
    toolOk "sys" "usr"
  exact ⟨h.2.2.1 (fun msgs => by simp [modelAlwaysTool]), h.2.1⟩

/-- **C8.** For every tool invocation requested by the model the agent
loop receives a structured result and never a raised exception
(`safe_execute_tool` is total into `ToolRet`): an unrecognised tool name
yields `{"error": "Unknown tool: <name>"}`, and a tool implementation
that raises is converted at the dispatch boundary into
`{"error": "<name> execution failed: <exception text>"}`. -/
theorem claim_C8 {α : Type} (rs rf rr : α → Except String ToolRet)
    (tool_name : String) (parsed_args : α) :
    (tool_name ∉ KNOWN_TOOL_NAMES →
      safe_execute_tool rs rf rr tool_name parsed_args
        = .errorOnly ("Unknown tool: " ++ tool_name)) ∧
    (∀ exc, _execute_tool rs rf rr tool_name parsed_args = .error exc →
      safe_execute_tool rs rf rr tool_name parsed_args
        = .errorOnly (tool_name ++ " execution failed: " ++ exc)) := by
  constructor
  · intro hmem
    simp only [KNOWN_TOOL_NAMES, List.mem_cons, List.mem_singleton, not_or,
      List.not_mem_nil, not_false_iff, and_true] at hmem
    obtain ⟨h1, h2, h3⟩ := hmem
    rw [safe_execute_tool, _execute_tool, if_neg h1, if_neg h2, if_neg h3]
  · intro exc hexc
    rw [safe_execute_tool, hexc]

/-- Witness for `claim_C8`: the unknown name `"frobnicate"` produces the
unknown-tool error dict, and a `web_search` implementation raising
`"boom"` produces the converted execution-failure dict. -/
theorem claim_C8_witness :
    safe_execute_tool toolBoom toolOk toolOk "frobnicate" ()
      = .errorOnly "Unknown tool: frobnicate" ∧
    safe_execute_tool toolBoom toolOk toolOk "web_search" ()
      = .errorOnly "web_search execution failed: boom" := by
  have h1 := claim_C8 toolBoom toolOk toolOk "frobnicate" ()
  have h2 := claim_C8 toolBoom toolOk toolOk "web_search" ()
  exact ⟨h1.1 (by decide), h2.2 "boom" rfl⟩

theorem startsCi_append_long (p : List Char) :
    ∀ t r, startsCi p t = false → p.length ≤ t.length →
      startsCi p (t ++ r) = false := by
  induction p with
  | nil =>
    intro t r hf _
    simp [startsCi] at hf
  | cons q ps ih =>
    intro t r hf hlen
    cases t with
    | nil => simp at hlen
    | cons c t' =>
      rw [List.cons_append]
      rw [startsCi] at hf ⊢
      by_cases hc : c.toLower = q
      · have hf' : startsCi ps t' = false := by
          cases hx : startsCi ps t'
          · rfl
          · rw [hx] at hf; simp [hc] at hf
        rw [ih t' r hf' (by simp only [List.length_cons] at hlen; omega),
          Bool.and_false]
      · simp [hc]

theorem startsCi_append_short (p : List Char) :
    ∀ t r d, r.head? = some d → t.length < p.length →
      (∀ q ∈ p.drop t.length, q ≠ d.toLower) →
      startsCi p (t ++ r) = false := by
  induction p with
  | nil =>
    intro t r d _ hlen _
    simp at hlen
  | cons q ps ih =>
    intro t r d hd hlen hp
    cases t with
    | nil =>
      cases r with
      | nil => cases hd
      | cons e r' =>
        have he : e = d := by simpa using hd
        subst he
        have hq : q ≠ e.toLower := hp q (by simp)
        rw [List.nil_append, startsCi]
        simp [hq.symm]
    | cons c t' =>
      rw [List.cons_append, startsCi]
      by_cases hc : c.toLower = q
      · rw [ih t' r d hd (by simp only [List.length_cons] at hlen; omega)
          (fun x hx => hp x (by rw [List.length_cons, List.drop_succ_cons]; exact hx)),
          Bool.and_false]
      · simp [hc]

theorem startsCi_append_blocked (p t r : List Char) (d : Char)
    (hf : startsCi p t = false) (hd : r.head? = some d)
    (hp : ∀ q ∈ p, q ≠ d.toLower) : startsCi p (t ++ r) = false := by
  by_cases hl : p.length ≤ t.length
  · exact startsCi_append_long p t r hf hl
  · exact startsCi_append_short p t r d hd (by omega)
      (fun q hq => hp q (List.drop_subset _ _ hq))

theorem startsCi_self_append (p : List Char) :
    ∀ t, (∀ c ∈ p, c.toLower = c) → startsCi p (p ++ t) = true := by
  induction p with
  | nil => intro t _; simp [startsCi]
  | cons q ps ih =>
    intro t hp
    have hq : q.toLower = q := hp q (List.mem_cons_self _ _)
    have h2 := ih t (fun c hc => hp c (List.mem_cons_of_mem _ hc))
    rw [List.cons_append, startsCi, hq, h2]
    simp

theorem hasOpener_cons_false {c : Char} {cs : List Char}
    (h : hasOpener (c :: cs) = false) :
    isOpenerAt (c :: cs) = false ∧ hasOpener cs = false := by
  rw [hasOpener] at h
  constructor
  · cases ho : isOpenerAt (c :: cs)
    · rfl
    · rw [ho] at h; simp at h
  · cases hh : hasOpener cs
    · rfl
    · rw [hh] at h; simp at h

theorem tryOpen_append_none (c : Char) (A' R : List Char) (d : Char)
    (hop : isOpenerAt (c :: A') = false) (hd : R.head? = some d)
    (h1 : ∀ q ∈ "script".data, q ≠ d.toLower)
    (h2 : ∀ q ∈ "style".data, q ≠ d.toLower)
    (h3 : ∀ q ∈ "noscript".data, q ≠ d.toLower) :
    tryOpen ((c :: A') ++ R) = none := by
  rw [List.cons_append, tryOpen]
  by_cases hc : c = '<'
  · rw [if_pos hc]
    subst hc
    rw [isOpenerAt] at hop
    have horr : (startsCi "script".data A' || startsCi "style".data A' ||
        startsCi "noscript".data A') = false := by
      cases hx : (startsCi "script".data A' || startsCi "style".data A' ||
          startsCi "noscript".data A')
      · rfl
      · rw [hx] at hop; simp at hop
    have e1 : startsCi "script".data A' = false := by
      cases hx : startsCi "script".data A'
      · rfl
      · rw [hx] at horr; simp at horr
    have e2 : startsCi "style".data A' = false := by
      cases hx : startsCi "style".data A'
      · rfl
      · rw [hx] at horr; simp at horr
    have e3 : startsCi "noscript".data A' = false := by
      cases hx : startsCi "noscript".data A'
      · rfl
      · rw [hx] at horr; simp at horr
    rw [startsCi_append_blocked _ _ _ d e1 hd h1,
      startsCi_append_blocked _ _ _ d e2 hd h2,
      startsCi_append_blocked _ _ _ d e3 hd h3]
    simp
  · rw [if_neg hc]

theorem stepBlock_append_none (c : Char) (A' R : List Char) (d : Char)
    (hop : isOpenerAt (c :: A') = false) (hd : R.head? = some d)
    (h1 : ∀ q ∈ "script".data, q ≠ d.toLower)
    (h2 : ∀ q ∈ "style".data, q ≠ d.toLower)
    (h3 : ∀ q ∈ "noscript".data, q ≠ d.toLower) :
    stepBlock ((c :: A') ++ R) = none := by
  rw [stepBlock, matchBlock, tryOpen_append_none c A' R d hop hd h1 h2 h3]
  rfl

theorem removeBlocks_append (A : List Char) :
    ∀ R d, hasOpener A = false → R.head? = some d →
      (∀ q ∈ "script".data, q ≠ d.toLower) →
      (∀ q ∈ "style".data, q ≠ d.toLower) →
      (∀ q ∈ "noscript".data, q ≠ d.toLower) →
      reSub stepBlock (A ++ R) = A ++ reSub stepBlock R := by
  induction A with
  | nil => intro R d _ _ _ _ _; rw [List.nil_append, List.nil_append]
  | cons c A' ih =>
    intro R d hA hd h1 h2 h3
    obtain ⟨hop, hA'⟩ := hasOpener_cons_false hA
    have hnone : stepBlock (c :: (A' ++ R)) = none := by
      rw [← List.cons_append]
      exact stepBlock_append_none c A' R d hop hd h1 h2 h3
    rw [List.cons_append, reSub_cons_nomatch _ _ _ hnone,
      ih R d hA' hd h1 h2 h3, List.cons_append]

theorem splitCi_gt (X : List Char) : splitCi ['>'] ('>' :: X) = some ([], X) := by
  have h1 : startsCi ['>'] ('>' :: X) = true :=
    startsCi_self_append ['>'] X (by decide)
  rw [splitCi, if_pos h1]
  rfl

theorem splitCi_close (B : List Char) :
    ∀ S, containsCi "</script>".data S = false →
      splitCi "</script>".data (S ++ ("</script>".data ++ B)) = some (S, B) := by
  intro S
  induction S with
  | nil =>
    intro _
    rw [List.nil_append]
    have h1 : startsCi "</script>".data ("</script>".data ++ B) = true :=
      startsCi_self_append _ _ (by decide)
    have hform : "</script>".data ++ B = '<' :: ("/script>".data ++ B) := rfl
    rw [hform] at h1 ⊢
    rw [splitCi, if_pos h1]
    have hdrop : ('<' :: ("/script>".data ++ B)).drop ("</script>".data).length
        = B := by
      have hb : ('<' :: ("/script>".data ++ B)) = "</script>".data ++ B := rfl
      rw [hb, List.drop_left]
    rw [hdrop]
  | cons c S' ih =>
    intro hS
    rw [containsCi] at hS
    have hs1 : startsCi "</script>".data (c :: S') = false := by
      cases hx : startsCi "</script>".data (c :: S')
      · rfl
      · rw [hx] at hS; simp at hS
    have hs2 : containsCi "</script>".data S' = false := by
      cases hx : containsCi "</script>".data S'
      · rfl
      · rw [hx] at hS; simp at hS
    have hfalse : startsCi "</script>".data
        ((c :: S') ++ ("</script>".data ++ B)) = false := by
      by_cases hl : ("</script>".data).length ≤ (c :: S').length
      · exact startsCi_append_long _ _ _ hs1 hl
      · refine startsCi_append_short _ _ _ '<' rfl ?_ ?_
        · omega
        · intro x hx
          have hx2 : x ∈ ("</script>".data).drop 1 := by
            have hstep : ("</script>".data).drop ((c :: S').length)
                = (("</script>".data).drop 1).drop S'.length := by
              rw [List.drop_drop, List.length_cons]
              congr 1
              omega
            rw [hstep] at hx
            exact List.drop_subset _ _ hx
          have hall : ∀ y ∈ ("</script>".data).drop 1, y ≠ Char.toLower '<' := by
            decide
          exact hall x hx2
    rw [List.cons_append] at hfalse
    rw [List.cons_append, splitCi,
      if_neg (by rw [hfalse]; exact Bool.false_ne_true), ih hs2]

theorem matchBlock_script (S B : List Char)
    (hS : containsCi "</script>".data S = false) :
    matchBlock ("<script>".data ++ (S ++ ("</script>".data ++ B)))
      = some B := by
  have hform : "<script>".data ++ (S ++ ("</script>".data ++ B))
      = '<' :: ("script".data ++ ('>' :: (S ++ ("</script>".data ++ B)))) := rfl
  rw [hform, matchBlock]
  have htry : tryOpen ('<' :: ("script".data
        ++ ('>' :: (S ++ ("</script>".data ++ B)))))
      = some ("script".data, '>' :: (S ++ ("</script>".data ++ B))) := by
    rw [tryOpen, if_pos rfl]
    have h1 : startsCi "script".data ("script".data
        ++ ('>' :: (S ++ ("</script>".data ++ B)))) = true :=
      startsCi_self_append _ _ (by decide)
    rw [if_pos h1]
    have hdrop6 : ("script".data
          ++ ('>' :: (S ++ ("</script>".data ++ B)))).drop 6
        = '>' :: (S ++ ("</script>".data ++ B)) := by
      have h6 : (6 : Nat) = ("script".data).length := rfl
      rw [h6, List.drop_left]
    rw [hdrop6]
  rw [htry]
  show (match findCi ['>'] ('>' :: (S ++ ("</script>".data ++ B))) with
    | none => none
    | some r2 => findCi ('<' :: '/' :: ("script".data ++ ['>'])) r2) = some B
  have hgt : findCi ['>'] ('>' :: (S ++ ("</script>".data ++ B)))
      = some (S ++ ("</script>".data ++ B)) := by
    rw [findCi, splitCi_gt]
    rfl
  rw [hgt]
  show findCi ('<' :: '/' :: ("script".data ++ ['>']))
    (S ++ ("</script>".data ++ B)) = some B
  have hpat : ('<' :: '/' :: ("script".data ++ ['>'])) = "</script>".data := rfl
  rw [hpat, findCi, splitCi_close B S hS]
  rfl

theorem removeBlocks_script (A S B : List Char) (hA : hasOpener A = false)
    (hS : containsCi "</script>".data S = false) :
    removeBlocks (A ++ ("<script>".data ++ (S ++ ("</script>".data ++ B))))
      = A ++ ' ' :: removeBlocks B := by
  rw [removeBlocks,
    removeBlocks_append A ("<script>".data ++ (S ++ ("</script>".data ++ B)))
      '<' hA rfl (by decide) (by decide) (by decide)]
  congr 1
  have hstep : stepBlock ("<script>".data ++ (S ++ ("</script>".data ++ B)))
      = some ([' '], B) := by
    rw [stepBlock, matchBlock_script S B hS]
    rfl
  have hcons : "<script>".data ++ (S ++ ("</script>".data ++ B))
      = '<' :: ("script>".data ++ (S ++ ("</script>".data ++ B))) := rfl
  rw [hcons] at hstep
  rw [hcons, reSub_cons_match stepBlock stepBlock_shrinks _ _ _ hstep]
  rfl

theorem removeBlocks_space (A B : List Char) (hA : hasOpener A = false) :
    removeBlocks (A ++ ' ' :: B) = A ++ ' ' :: removeBlocks B := by
  rw [removeBlocks,
    removeBlocks_append A (' ' :: B) ' ' hA rfl (by decide) (by decide)
      (by decide)]
  congr 1

/-- **C7** (amended). The block-removal pass really does erase a
well-delimited script element: when the surrounding prefix contains no
`<script`/`<style`/`<noscript` opener and the script body contains no
case-insensitive `</script>`, the extracted text of
`A <script> S </script> B` equals the extracted text of `A B` with the
element replaced by one space — the script's contents `S` are gone. The
original unconditional claim is false: a close tag the stage-1 regex
does not recognise (e.g. `</script >`) leaks the script body, see the
counterexample. -/
theorem claim_C7 (A S B : List Char) (hA : hasOpener A = false)
    (hS : containsCi "</script>".data S = false) :
    simple_html_to_text (A ++ "<script>".data ++ S ++ "</script>".data ++ B)
      = simple_html_to_text (A ++ ' ' :: B) := by
  have hassoc : A ++ "<script>".data ++ S ++ "</script>".data ++ B
      = A ++ ("<script>".data ++ (S ++ ("</script>".data ++ B))) := by
    simp [List.append_assoc]
  rw [simple_html_to_text, simple_html_to_text, hassoc,
    removeBlocks_script A S B hA hS, removeBlocks_space A B hA]

/-- Counterexample to the original **C7**: the stage-1 block regex
requires the literal `</script>`, so for `<script>SECRET</script >`
(space before `>`) the block pass does not fire, stage 4 strips both
tags, and the script's contents survive as the extracted text. -/
theorem claim_C7_counterexample :
    simple_html_to_text "<script>SECRET</script >".data = "SECRET".data := by
  decide

/-- Witness for `claim_C7`: a concrete page prefix, script body and
suffix satisfying the hypotheses, with the two pipeline runs evaluated. -/
theorem claim_C7_witness :
    simple_html_to_text ("<p>hi</p>".data ++ "<script>".data
        ++ "var x = 1;".data ++ "</script>".data ++ "ok".data)
      = simple_html_to_text ("<p>hi</p>".data ++ ' ' :: "ok".data) :=
  claim_C7 "<p>hi</p>".data "var x = 1;".data "ok".data (by decide) (by decide)
